import Mathlib

/-!
Verification development for an MCP chat client repository.

The repository mediates between LLM provider adapters (Anthropic, OpenAI,
Gemini) and a remote tool-execution session.  Adapters render structured tool
invocations into textual markers of the form
  [Tool call: <name> with args <python-dict-repr>]
and the mediator in MCPClient.process_query re-extracts them with the regex
  \[Tool call: ([\w\-]+) with args (.+?)\]
followed by a single-quote-to-double-quote substitution and json.loads.

This file gives a shallow embedding of the relevant code:
  * Python value rendering (dict display form) as produced by the adapters,
  * a model of json.loads (strings restricted to ASCII-level fidelity;
    JSON floats are modelled as exact rationals; NaN/Infinity constants kept),
  * the mediator scan (a deterministic simulation of the regex, left to right),
  * the three provider adapters, the Gemini tool-catalog projector,
  * the terminal chat loop, program startup, and the bounded transcript store
    of src/03/client_sse_chat_enhanced.py.

Characters that are awkward in string literals are named once below and used
throughout.
-/

/-- The single-quote character (Python dict display quotes). -/
def charSQuote : Char := Char.ofNat 39

/-- The double-quote character (JSON string quotes). -/
def charDQuote : Char := Char.ofNat 34

/-- The backslash character. -/
def charBackslash : Char := Char.ofNat 92

/-- Opening curly brace. -/
def charLBrace : Char := Char.ofNat 123

/-- Closing curly brace. -/
def charRBrace : Char := Char.ofNat 125

/-- Carriage return. -/
def charCR : Char := Char.ofNat 13

/-- ASCII lower-casing of a single character, modelling Python str.lower
for the ASCII range (the repository only compares ASCII provider and type
names). -/
def charLower (c : Char) : Char :=
  match c with
  | 'A' => 'a' | 'B' => 'b' | 'C' => 'c' | 'D' => 'd' | 'E' => 'e'
  | 'F' => 'f' | 'G' => 'g' | 'H' => 'h' | 'I' => 'i' | 'J' => 'j'
  | 'K' => 'k' | 'L' => 'l' | 'M' => 'm' | 'N' => 'n' | 'O' => 'o'
  | 'P' => 'p' | 'Q' => 'q' | 'R' => 'r' | 'S' => 's' | 'T' => 't'
  | 'U' => 'u' | 'V' => 'v' | 'W' => 'w' | 'X' => 'x' | 'Y' => 'y'
  | 'Z' => 'z' | c => c

/-- ASCII upper-casing of a single character, modelling Python str.upper
for the ASCII range. -/
def charUpper (c : Char) : Char :=
  match c with
  | 'a' => 'A' | 'b' => 'B' | 'c' => 'C' | 'd' => 'D' | 'e' => 'E'
  | 'f' => 'F' | 'g' => 'G' | 'h' => 'H' | 'i' => 'I' | 'j' => 'J'
  | 'k' => 'K' | 'l' => 'L' | 'm' => 'M' | 'n' => 'N' | 'o' => 'O'
  | 'p' => 'P' | 'q' => 'Q' | 'r' => 'R' | 's' => 'S' | 't' => 'T'
  | 'u' => 'U' | 'v' => 'V' | 'w' => 'W' | 'x' => 'X' | 'y' => 'Y'
  | 'z' => 'Z' | c => c

/-- Model of Python str.lower restricted to ASCII. -/
def strLower (s : String) : String := String.mk (s.data.map charLower)

/-- Model of Python str.upper restricted to ASCII. -/
def strUpper (s : String) : String := String.mk (s.data.map charUpper)

/-- Whitespace stripped by Python str.strip. -/
def isPyWs (c : Char) : Bool :=
  c == ' ' || c == '\t' || c == '\n' || Char.ofNat 11 == c || Char.ofNat 12 == c || Char.ofNat 13 == c

/-- Model of Python str.strip with no argument: drop leading and trailing
whitespace. -/
def pyStrip (s : String) : String :=
  String.mk (((s.data.dropWhile isPyWs).reverse.dropWhile isPyWs).reverse)

/-- Decimal digit to character. -/
def digitToChar (n : Nat) : Char :=
  match n with
  | 0 => '0' | 1 => '1' | 2 => '2' | 3 => '3' | 4 => '4'
  | 5 => '5' | 6 => '6' | 7 => '7' | 8 => '8' | _ => '9'

/-- Hexadecimal digit to character (lower case), used by the Python repr
model for escaped control characters. -/
def hexDigitToChar (n : Nat) : Char :=
  if n < 10 then digitToChar n
  else match n with
    | 10 => 'a' | 11 => 'b' | 12 => 'c' | 13 => 'd' | 14 => 'e' | _ => 'f'

/-- Decimal rendering of a natural number, fuel-structured so that it
evaluates by kernel reduction; fuel is always supplied as n + 1 which
dominates the number of digits. -/
def natReprAux : Nat → Nat → List Char
  | 0, _ => []
  | fuel + 1, n =>
    if n < 10 then [digitToChar n]
    else natReprAux fuel (n / 10) ++ [digitToChar (n % 10)]

/-- Decimal rendering of a natural number (Python repr of a nonnegative int). -/
def natReprStr (n : Nat) : String := String.mk (natReprAux (n + 1) n)

/-- Decimal rendering of an integer (Python repr of an int). -/
def intReprStr (i : Int) : String :=
  if i < 0 then String.mk ('-' :: natReprAux (i.natAbs + 1) i.natAbs)
  else natReprStr i.toNat

/-- A flat Python value as it appears in tool-call argument mappings:
strings, ints, bools and None.  (Python floats are outside this model.) -/
inductive PyVal
  | str (s : String)
  | int (n : Int)
  | bool (b : Bool)
  | null
deriving DecidableEq

/-- Escaping of one character inside a Python string repr delimited by
quote q: the delimiter and backslash are escaped, common control characters
get two-character escapes, other control characters get a hex escape.
(Non-ASCII repr behaviour is outside this model.) -/
def pyEscChar (q c : Char) : List Char :=
  if c = charBackslash then [charBackslash, charBackslash]
  else if c = q then [charBackslash, q]
  else if c = '\n' then [charBackslash, 'n']
  else if c = charCR then [charBackslash, 'r']
  else if c = '\t' then [charBackslash, 't']
  else if c.toNat < 32 || c.toNat == 127 then
    [charBackslash, 'x', hexDigitToChar (c.toNat / 16), hexDigitToChar (c.toNat % 16)]
  else [c]

/-- Python repr of a string: single-quoted, unless the string contains a
single quote and no double quote, in which case it is double-quoted. -/
def pyStrRepr (s : String) : String :=
  let q := if s.data.contains charSQuote && !(s.data.contains charDQuote)
           then charDQuote else charSQuote
  String.mk (q :: (s.data.map (pyEscChar q)).flatten ++ [q])

/-- Python repr of a flat value. -/
def pyValRepr : PyVal → String
  | .str s => pyStrRepr s
  | .int n => intReprStr n
  | .bool b => if b then "True" else "False"
  | .null => "None"

/-- The comma-separated members of a Python dict display form. -/
def pyDictMembersRepr : List (String × PyVal) → String
  | [] => ""
  | (k, v) :: rest =>
    pyStrRepr k ++ ": " ++ pyValRepr v ++
      (match rest with
       | [] => ""
       | _ :: _ => ", " ++ pyDictMembersRepr rest)

/-- Python dict display form of a flat argument mapping, as interpolated by
the adapters into the tool-call marker. -/
def pyDictRepr (args : List (String × PyVal)) : String :=
  "\x7b" ++ pyDictMembersRepr args ++ "\x7d"

/-- JSON values as produced by the json.loads model.  Python distinguishes
int and float results; floats are modelled as exact rationals, and the
non-standard constants NaN / Infinity / -Infinity (accepted by json.loads
by default) are kept symbolically. -/
inductive JVal
  | jstr (s : String)
  | jint (n : Int)
  | jnum (q : Rat)
  | jbool (b : Bool)
  | jnull
  | jconst (name : String)
  | jobj (members : List (String × JVal))
  | jarr (elems : List JVal)

/-- Embedding of flat Python values into JSON values. -/
def pyToJson : PyVal → JVal
  | .str s => .jstr s
  | .int n => .jint n
  | .bool b => .jbool b
  | .null => .jnull

/-- Python dict insertion: an existing key keeps its position and gets the
new value, a new key is appended.  json.loads builds its objects this way,
so duplicate keys keep the last value. -/
def dictInsert (k : String) (v : JVal) : List (String × JVal) → List (String × JVal)
  | [] => [(k, v)]
  | (k2, v2) :: rest =>
    if k2 = k then (k2, v) :: rest else (k2, v2) :: dictInsert k v rest

/-- JSON whitespace as accepted by json.loads: space, tab, newline, return. -/
def jsonWs (c : Char) : Bool :=
  c == ' ' || c == '\t' || c == '\n' || c == charCR

/-- Skip JSON whitespace. -/
def jskipWs : List Char → List Char
  | [] => []
  | c :: cs => if jsonWs c then jskipWs cs else c :: cs

/-- Match a literal character sequence at the head of the input, returning
the remainder. -/
def matchLiteral : List Char → List Char → Option (List Char)
  | [], s => some s
  | _ :: _, [] => none
  | l :: ls, c :: cs => if c = l then matchLiteral ls cs else none

/-- Hexadecimal digit value of a character. -/
def hexVal (c : Char) : Option Nat :=
  if c.isDigit then some (c.toNat - 48)
  else if 'a' ≤ c ∧ c ≤ 'f' then some (c.toNat - 87)
  else if 'A' ≤ c ∧ c ≤ 'F' then some (c.toNat - 55)
  else none

/-- Body of a JSON string literal, after the opening quote: strict mode of
json.loads, so unescaped control characters are rejected; the usual
two-character escapes and \xHH-free JSON escapes (\uXXXX) are accepted.
Lone-surrogate \u escapes are mapped through Char.ofNat (a model
simplification; no theorem depends on them). -/
def jstrBody : List Char → List Char → Option (String × List Char)
  | _, [] => none
  | acc, c :: cs =>
    if c = charDQuote then some (String.mk acc.reverse, cs)
    else if c = charBackslash then
      match cs with
      | [] => none
      | e :: es =>
        if e = charDQuote then jstrBody (charDQuote :: acc) es
        else if e = charBackslash then jstrBody (charBackslash :: acc) es
        else if e = '/' then jstrBody ('/' :: acc) es
        else if e = 'b' then jstrBody (Char.ofNat 8 :: acc) es
        else if e = 'f' then jstrBody (Char.ofNat 12 :: acc) es
        else if e = 'n' then jstrBody ('\n' :: acc) es
        else if e = 'r' then jstrBody (charCR :: acc) es
        else if e = 't' then jstrBody ('\t' :: acc) es
        else if e = 'u' then
          match es with
          | h1 :: h2 :: h3 :: h4 :: es4 =>
            match hexVal h1, hexVal h2, hexVal h3, hexVal h4 with
            | some a, some b, some c2, some d =>
              jstrBody (Char.ofNat (((a * 16 + b) * 16 + c2) * 16 + d) :: acc) es4
            | _, _, _, _ => none
          | _ => none
        else none
    else if c.toNat < 32 then none
    else jstrBody (c :: acc) cs

/-- Consume a maximal run of decimal digits, accumulating the value and a
count of digits consumed. -/
def jdigitsAux : Nat → Nat → List Char → Nat × Nat × List Char
  | acc, k, [] => (acc, k, [])
  | acc, k, c :: cs =>
    if c.isDigit then jdigitsAux (acc * 10 + (c.toNat - 48)) (k + 1) cs
    else (acc, k, c :: cs)

/-- An exact rational m * 10 ^ e. -/
def ratTimesPow10 (m : Int) (e : Int) : Rat :=
  if 0 ≤ e then (m : Rat) * (10 : Rat) ^ e.toNat
  else (m : Rat) / (10 : Rat) ^ (-e).toNat

/-- JSON number grammar of json.loads: optional minus, an integer part with
no leading zeros, an optional fraction (dot followed by at least one digit)
and an optional exponent; a pure integer yields a Python int, otherwise a
float (modelled as the exact rational). -/
def jfracPart (s2 : List Char) : Nat × Nat × List Char :=
  match s2 with
  | p :: d :: ds =>
    if p = '.' && d.isDigit then jdigitsAux (d.toNat - 48) 1 ds
    else (0, 0, s2)
  | _ => (0, 0, s2)

def jexpPart (s3 : List Char) : Bool × Int × List Char :=
  match s3 with
  | e :: rest =>
    if e = 'e' || e = 'E' then
      match rest with
      | si :: rest2 =>
        if si = '+' then
          match rest2 with
          | d :: ds =>
            if d.isDigit then
              let r := jdigitsAux (d.toNat - 48) 1 ds
              (true, (r.1 : Int), r.2.2)
            else (false, 0, s3)
          | [] => (false, 0, s3)
        else if si = '-' then
          match rest2 with
          | d :: ds =>
            if d.isDigit then
              let r := jdigitsAux (d.toNat - 48) 1 ds
              (true, -(r.1 : Int), r.2.2)
            else (false, 0, s3)
          | [] => (false, 0, s3)
        else if si.isDigit then
          let r := jdigitsAux (si.toNat - 48) 1 rest2
          (true, (r.1 : Int), r.2.2)
        else (false, 0, s3)
      | [] => (false, 0, s3)
    else (false, 0, s3)
  | [] => (false, 0, s3)

def jnumberBody (neg : Bool) (s1 : List Char) : Option (JVal × List Char) :=
  match s1 with
  | [] => none
  | c :: cs =>
    if !c.isDigit then none
    else
      let ipart : Nat × List Char :=
        if c = '0' then (0, cs)
        else
          let r := jdigitsAux (c.toNat - 48) 1 cs
          (r.1, r.2.2)
      let fpart := jfracPart ipart.2
      let epart := jexpPart fpart.2.2
      if fpart.2.1 == 0 && !epart.1 then
        some (JVal.jint (if neg then -(ipart.1 : Int) else (ipart.1 : Int)), epart.2.2)
      else
        let mant : Int :=
          (if neg then -1 else 1) * ((ipart.1 * 10 ^ fpart.2.1 + fpart.1 : Nat) : Int)
        some (JVal.jnum (ratTimesPow10 mant (epart.2.1 - (fpart.2.1 : Int))), epart.2.2)

/-- The number grammar entry: strip an optional minus sign, then the body. -/
def jnumber (s : List Char) : Option (JVal × List Char) :=
  match s with
  | [] => none
  | c :: cs => if c = '-' then jnumberBody true cs else jnumberBody false (c :: cs)

/-- Object member list of a JSON object, parameterised by the value parse
function; fuel bounds the number of members. -/
def jmembers (pv : List Char → Option (JVal × List Char)) :
    Nat → List (String × JVal) → List Char → Option (List (String × JVal) × List Char)
  | 0, _, _ => none
  | fuel + 1, acc, s =>
    match jskipWs s with
    | [] => none
    | c :: cs =>
      if c = charDQuote then
        match jstrBody [] cs with
        | none => none
        | some (key, r1) =>
          match jskipWs r1 with
          | [] => none
          | c2 :: r2 =>
            if c2 = ':' then
              match pv r2 with
              | none => none
              | some (v, r3) =>
                let acc2 := dictInsert key v acc
                match jskipWs r3 with
                | [] => none
                | d :: r4 =>
                  if d = ',' then jmembers pv fuel acc2 r4
                  else if d = charRBrace then some (acc2, r4) else none
            else none
      else none

/-- Element list of a JSON array, parameterised by the value parse function. -/
def jelems (pv : List Char → Option (JVal × List Char)) :
    Nat → List JVal → List Char → Option (List JVal × List Char)
  | 0, _, _ => none
  | fuel + 1, acc, s =>
    match pv s with
    | none => none
    | some (v, r) =>
      match jskipWs r with
      | [] => none
      | d :: r2 =>
        if d = ',' then jelems pv fuel (acc ++ [v]) r2
        else if d = ']' then some (acc ++ [v], r2) else none

/-- One JSON value, in the grammar accepted by json.loads (with its default
acceptance of NaN / Infinity / -Infinity).  Fuel bounds recursion depth and
member counts; the wrapper below supplies input length plus one, which
dominates both. -/
def jparseTop (pv : List Char → Option (JVal × List Char)) (mfuel : Nat) :
    List Char → Option (JVal × List Char)
  | [] => none
  | c :: cs =>
    if c = charLBrace then
      match jskipWs cs with
      | [] => none
      | d :: ds =>
        if d = charRBrace then some (JVal.jobj [], ds)
        else
          match jmembers pv mfuel [] (d :: ds) with
          | some (ms, rest) => some (JVal.jobj ms, rest)
          | none => none
    else if c = '[' then
      match jskipWs cs with
      | [] => none
      | d :: ds =>
        if d = ']' then some (JVal.jarr [], ds)
        else
          match jelems pv mfuel [] (d :: ds) with
          | some (es, rest) => some (JVal.jarr es, rest)
          | none => none
    else if c = charDQuote then
      match jstrBody [] cs with
      | some (str, rest) => some (JVal.jstr str, rest)
      | none => none
    else if c = 't' then
      match matchLiteral ('r' :: 'u' :: 'e' :: []) cs with
      | some r => some (JVal.jbool true, r)
      | none => none
    else if c = 'f' then
      match matchLiteral ('a' :: 'l' :: 's' :: 'e' :: []) cs with
      | some r => some (JVal.jbool false, r)
      | none => none
    else if c = 'n' then
      match matchLiteral ('u' :: 'l' :: 'l' :: []) cs with
      | some r => some (JVal.jnull, r)
      | none => none
    else if c = 'N' then
      match matchLiteral ('a' :: 'N' :: []) cs with
      | some r => some (JVal.jconst "NaN", r)
      | none => none
    else if c = 'I' then
      match matchLiteral ('n' :: 'f' :: 'i' :: 'n' :: 'i' :: 't' :: 'y' :: []) cs with
      | some r => some (JVal.jconst "Infinity", r)
      | none => none
    else if c = '-' then
      match matchLiteral ('I' :: 'n' :: 'f' :: 'i' :: 'n' :: 'i' :: 't' :: 'y' :: []) cs with
      | some r => some (JVal.jconst "-Infinity", r)
      | none => jnumber (c :: cs)
    else jnumber (c :: cs)

/-- One JSON value: skip leading whitespace, then dispatch on the head
character; nested values get one unit less fuel, and the member and
element loops get the present fuel. -/
def jparse : Nat → List Char → Option (JVal × List Char)
  | 0, _ => none
  | fuel + 1, s0 => jparseTop (jparse fuel) (fuel + 1) (jskipWs s0)

/-- Model of json.loads: parse one value, then require only trailing
whitespace. -/
def jsonLoads (s : String) : Option JVal :=
  match jparse (s.data.length + 1) s.data with
  | some (v, rest) => if jskipWs rest = [] then some v else none
  | none => none

/-!
## The tool mediator of MCPClient.process_query

The mediator scans the adapter text with the Python regex
  \[Tool call: ([\w\-]+) with args (.+?)\]
via re.findall, which tries the pattern at each position from left to right
and continues after each match.  The functions below simulate that engine
exactly for this pattern:

  * the literal pieces are matched verbatim;
  * ([\w\-]+) takes the maximal run of word characters — backtracking can
    never help, because the following literal starts with a space, which is
    not a word character (word characters are modelled at ASCII level);
  * (.+?)\] is lazy: it takes the shortest nonempty run of non-newline
    characters that is followed by a closing bracket.
-/

/-- Word character of the marker pattern class [\w\-], at ASCII level. -/
def isWordChar (c : Char) : Bool := c.isAlphanum || c == '_' || c == '-'

/-- The literal prefix of the marker pattern. -/
def litToolCall : List Char := ('[' :: 'T' :: 'o' :: 'o' :: 'l' :: ' ' :: 'c' :: 'a' :: 'l' :: 'l' :: ':' :: ' ' :: [])

/-- The literal middle piece of the marker pattern. -/
def litWithArgs : List Char := (' ' :: 'w' :: 'i' :: 't' :: 'h' :: ' ' :: 'a' :: 'r' :: 'g' :: 's' :: ' ' :: [])

/-- Greedy run of word characters. -/
def takeWordChars : List Char → List Char × List Char
  | [] => ([], [])
  | c :: cs =>
    if isWordChar c then
      let r := takeWordChars cs
      (c :: r.1, r.2)
    else ([], c :: cs)

/-- Lazy scan of (.+?)\] after its first character has been consumed into
acc: stop at the first closing bracket, fail on a newline or at end of
input. -/
def scanArgs : List Char → List Char → Option (List Char × List Char)
  | _, [] => none
  | acc, d :: ds =>
    if d = ']' then some (acc.reverse, ds)
    else if d = '\n' then none
    else scanArgs (d :: acc) ds

/-- Try the whole marker pattern at the head of the input; on success return
the two capture groups and the remainder after the match. -/
def tryMatchAt (s : List Char) : Option (String × String × List Char) :=
  match matchLiteral litToolCall s with
  | none => none
  | some s1 =>
    let nm := takeWordChars s1
    if nm.1.isEmpty then none
    else
      match matchLiteral litWithArgs nm.2 with
      | none => none
      | some s3 =>
        match s3 with
        | [] => none
        | c :: cs =>
          if c = '\n' then none
          else
            match scanArgs [c] cs with
            | none => none
            | some (args, rest) => some (String.mk nm.1, String.mk args, rest)

/-- re.findall simulation: try the pattern at each position, left to right,
continuing after each match.  The position of each match in the original
text is recorded alongside the capture groups (re.findall itself returns
only the groups; the position is instrumentation for stating the
left-to-right ordering guarantee).  Fuel is supplied as length + 1, which
dominates the number of scan steps. -/
def findToolCallsAux : Nat → Nat → List Char → List (Nat × String × String)
  | 0, _, _ => []
  | fuel + 1, pos, s =>
    match tryMatchAt s with
    | some (nm, args, rest) =>
      (pos, nm, args) :: findToolCallsAux fuel (pos + (s.length - rest.length)) rest
    | none =>
      match s with
      | [] => []
      | _ :: cs => findToolCallsAux fuel (pos + 1) cs

/-- All marker matches in the adapter text, with their positions, in
left-to-right order. -/
def findToolCalls (s : String) : List (Nat × String × String) :=
  findToolCallsAux (s.data.length + 1) 0 s.data

/-- Normalisation applied by the mediator before json.loads:
tool_args_str.replace with the single-quote pattern, i.e. every single
quote becomes a double quote. -/
def replaceQuotes (s : String) : String :=
  String.mk (s.data.map fun c => if c = charSQuote then charDQuote else c)

/-- Argument parsing of the mediator: json.loads after quote normalisation,
and the empty mapping on any parse failure (the except branch). -/
def parseToolArgs (tool_args_str : String) : JVal :=
  match jsonLoads (replaceQuotes tool_args_str) with
  | some v => v
  | none => JVal.jobj []

/-- The marker string produced by every adapter for a tool invocation. -/
def formatToolCallMarker (name args : String) : String :=
  "[Tool call: " ++ name ++ " with args " ++ args ++ "]"

/-- The mediator loop over the matches: each match is parsed, the tool is
called, and a result segment is appended to the running text.  The returned
list is the sequence of call_tool invocations (name and argument value), in
the order they are performed — instrumentation for the ordering and
degradation claims. -/
def processMatches (call_tool : String → JVal → String) :
    String → List (Nat × String × String) → String × List (String × JVal)
  | acc, [] => (acc, [])
  | acc, m :: rest =>
    let args := parseToolArgs m.2.2
    let r := call_tool m.2.1 args
    let res := processMatches call_tool (acc ++ "\n[tool results: " ++ r ++ "]") rest
    (res.1, (m.2.1, args) :: res.2)

/-- The mediator part of MCPClient.process_query: scan the adapter text for
markers and process them in order. -/
def processToolCalls (call_tool : String → JVal → String) (response_text : String) :
    String × List (String × JVal) :=
  processMatches call_tool response_text (findToolCalls response_text)

/-- Fallible mediator loop: call_tool may fail (a network error), which
aborts the turn. -/
def processMatchesE (call_tool : String → JVal → Except String String) :
    String → List (Nat × String × String) → Except String String
  | acc, [] => .ok acc
  | acc, m :: rest =>
    match call_tool m.2.1 (parseToolArgs m.2.2) with
    | .ok r => processMatchesE call_tool (acc ++ "\n[tool results: " ++ r ++ "]") rest
    | .error e => .error e

/-!
## Messages and provider adapters
-/

/-- A vendor tool-call record as carried on an OpenAI assistant message:
the function name and its arguments as a JSON text. -/
structure ToolCallRec where
  id : String
  name : String
  arguments : String
deriving DecidableEq

/-- A transcript message: role, plain content (None for an OpenAI assistant
message that only carries tool calls), and tool calls. -/
structure ChatMsg where
  role : String
  content : Option String
  tool_calls : List ToolCallRec
deriving DecidableEq

/-- The new user message appended by every adapter. -/
def mkUserMsg (q : String) : ChatMsg := ⟨"user", some q, []⟩

/-- A provider-agnostic tool descriptor property (JSON-Schema fragment). -/
structure PropDetails where
  type : Option String
  description : Option String
deriving DecidableEq

/-- A provider-agnostic input schema: its properties mapping (if the
properties key is present) and its required list (if present). -/
structure InputSchema where
  properties : Option (List (String × PropDetails))
  required : Option (List String)
deriving DecidableEq

/-- A provider-agnostic tool descriptor; input_schema is none when the key
is absent or its value is empty (falsy in the source checks). -/
structure ToolDescriptor where
  name : String
  description : String
  input_schema : Option InputSchema
deriving DecidableEq

/-- One content block of an Anthropic response. -/
inductive AnthropicContent
  | text (t : String)
  | tool_use (name : String) (input : List (String × PyVal))
deriving DecidableEq

/-- An Anthropic response: its list of content blocks. -/
structure AnthropicResponse where
  content : List AnthropicContent
deriving DecidableEq

/-- AnthropicService.process_query.  The vendor reply is an oracle argument:
the service submits prior messages plus the new user message and renders
each content block, text verbatim and tool_use blocks as markers carrying
the Python dict display form of the arguments.  The returned transcript is
the prior messages plus the new user message only (the assembled assistant
content is not appended by the source). -/
def anthropicProcessQuery (resp : AnthropicResponse) (query : String)
    (previous_messages : Option (List ChatMsg)) : String × List ChatMsg :=
  let messages := (previous_messages.getD []) ++ [mkUserMsg query]
  let final_text := resp.content.map fun c =>
    match c with
    | .text t => t
    | .tool_use n args => formatToolCallMarker n (pyDictRepr args)
  (String.intercalate "\n" final_text, messages)

/-- Python repr of a value produced by json.loads, as interpolated into an
OpenAI or Gemini marker.  Scalars follow Python repr (floats are not
modelled exactly; no theorem depends on the jnum rendering). -/
def pyJsonMembersRepr (pr : JVal → String) : List (String × JVal) → String
  | [] => ""
  | (k, v) :: rest =>
    pyStrRepr k ++ ": " ++ pr v ++
      (match rest with
       | [] => ""
       | _ :: _ => ", " ++ pyJsonMembersRepr pr rest)

/-- Comma-separated repr of list elements. -/
def pyJsonElemsRepr (pr : JVal → String) : List JVal → String
  | [] => ""
  | v :: rest =>
    pr v ++
      (match rest with
       | [] => ""
       | _ :: _ => ", " ++ pyJsonElemsRepr pr rest)

/-- Fuel-structured repr of a JSON value as a Python object. -/
def pyJsonReprAux : Nat → JVal → String
  | 0, _ => ""
  | fuel + 1, v =>
    match v with
    | .jstr s => pyStrRepr s
    | .jint n => intReprStr n
    | .jnum q => toString q
    | .jbool b => if b then "True" else "False"
    | .jnull => "None"
    | .jconst c => if c = "NaN" then "nan" else if c = "Infinity" then "inf" else "-inf"
    | .jobj l => "\x7b" ++ pyJsonMembersRepr (pyJsonReprAux fuel) l ++ "\x7d"
    | .jarr l => "[" ++ pyJsonElemsRepr (pyJsonReprAux fuel) l ++ "]"

/-- Python repr of a json.loads result.  The nesting depth of a value
parsed from a text is bounded by the text length, so every call site below
supplies the length of the source text plus two as fuel, which makes the
fuel-structured rendering exact. -/
def pyJsonReprWith (fuel : Nat) (v : JVal) : String := pyJsonReprAux fuel v

/-- The message object of an OpenAI chat completion choice. -/
structure OpenAIMessage where
  content : Option String
  tool_calls : List ToolCallRec
deriving DecidableEq

/-- OpenAIService.process_query.  With tool calls present the assistant
message (content plus tool calls) is appended to the transcript and each
call is rendered as a marker whose arguments are json.loads of the vendor
argument text — an unparseable argument text raises, modelled as an error.
Without tool calls the content alone is returned (a None content would make
the string join raise). -/
def openaiProcessQuery (response_message : OpenAIMessage) (query : String)
    (previous_messages : Option (List ChatMsg)) :
    Except String (String × List ChatMsg) :=
  let messages := (previous_messages.getD []) ++ [mkUserMsg query]
  if response_message.tool_calls.isEmpty then
    match response_message.content with
    | some c => .ok (String.intercalate "\n" [c], messages)
    | none => .error "TypeError: expected str instance, NoneType found"
  else
    let messages2 := messages ++
      [ChatMsg.mk "assistant" response_message.content response_message.tool_calls]
    match response_message.tool_calls.mapM (fun tc =>
        match jsonLoads tc.arguments with
        | some v => Except.ok (formatToolCallMarker tc.name
            (pyJsonReprWith (tc.arguments.data.length + 2) v))
        | none => Except.error "json.decoder.JSONDecodeError") with
    | .ok markers =>
      .ok (String.intercalate "\n" ((response_message.content.getD "") :: markers), messages2)
    | .error e => .error e

/-- The arguments attribute of a Gemini function call: either a dict-like
mapping or an opaque object rendered to a string. -/
inductive GeminiArgs
  | mapping (m : List (String × PyVal))
  | raw (s : String)
deriving DecidableEq

/-- A Gemini function call part payload. -/
structure GeminiFunctionCall where
  name : String
  args : GeminiArgs
deriving DecidableEq

/-- One part of a Gemini candidate content. -/
structure GeminiPart where
  text : Option String
  function_call : Option GeminiFunctionCall
deriving DecidableEq

/-- A Gemini candidate; parts is none when the content has no parts
attribute. -/
structure GeminiCandidate where
  parts : Option (List GeminiPart)
deriving DecidableEq

/-- A Gemini response: its candidates (empty when absent or falsy). -/
structure GeminiResponse where
  candidates : List GeminiCandidate
deriving DecidableEq

/-- GeminiService._parse_gemini_function_args: a dict-like args object is
copied entry by entry; otherwise the args object is rendered to text and
json.loads is attempted on it when nonblank; any failure leaves the empty
mapping. -/
def parseGeminiFunctionArgs (fc : GeminiFunctionCall) : JVal :=
  match fc.args with
  | .mapping m => JVal.jobj (m.map fun kv => (kv.1, pyToJson kv.2))
  | .raw s => if pyStrip s = "" then JVal.jobj [] else (jsonLoads s).getD (JVal.jobj [])

/-- A Gemini chat history entry (vendor-native format). -/
structure GeminiHistEntry where
  role : String
  text : String
deriving DecidableEq

/-- GeminiService._prepare_gemini_chat_history: user and assistant messages
with plain string content are reshaped (assistant becomes model), every
other message is silently dropped. -/
def prepareGeminiChatHistory (previous_messages : Option (List ChatMsg)) :
    List GeminiHistEntry :=
  (previous_messages.getD []).filterMap fun m =>
    match m.content with
    | some s =>
      if m.role = "user" then some ⟨"user", s⟩
      else if m.role = "assistant" then some ⟨"model", s⟩
      else none
    | none => none

/-- GeminiService.process_query.  The transcript returned is a copy of the
prior messages plus the new user message; the text renders each part of the
first candidate, its text when nonempty and its function call as a marker
carrying the Python repr of the parsed arguments. -/
def geminiProcessQuery (resp : GeminiResponse) (query : String)
    (previous_messages : Option (List ChatMsg)) : String × List ChatMsg :=
  let messages := (previous_messages.getD []) ++ [mkUserMsg query]
  let final_text :=
    match resp.candidates with
    | [] => []
    | cand :: _ =>
      match cand.parts with
      | none => []
      | some parts =>
        (parts.map fun part =>
          (match part.text with
           | some t => if t = "" then [] else [t]
           | none => []) ++
          (match part.function_call with
           | some fc =>
             let fuel := match fc.args with
               | .mapping _ => 2
               | .raw s => s.data.length + 2
             [formatToolCallMarker fc.name (pyJsonReprWith fuel (parseGeminiFunctionArgs fc))]
           | none => [])).flatten
  (String.intercalate "\n" final_text, messages)

/-!
## The Gemini tool-catalog projector
-/

/-- One projected property schema of a Gemini function declaration. -/
structure GeminiPropSchema where
  type : String
  description : Option String
deriving DecidableEq

/-- The parameters object of a Gemini function declaration. -/
structure GeminiParameters where
  type : String
  properties : List (String × GeminiPropSchema)
  required : List String
deriving DecidableEq

/-- A Gemini function declaration. -/
structure GeminiFunctionDeclaration where
  name : String
  description : String
  parameters : GeminiParameters
deriving DecidableEq

/-- The type_mapping dict of GeminiService._convert_tools_to_gemini_format. -/
def geminiTypeMapping (s : String) : Option String :=
  if s = "number" then some "NUMBER"
  else if s = "integer" then some "INTEGER"
  else if s = "boolean" then some "BOOLEAN"
  else if s = "array" then some "ARRAY"
  else if s = "object" then some "OBJECT"
  else none

/-- GeminiService._convert_tools_to_gemini_format: each tool becomes a
function declaration with OBJECT parameters; each property type name is
uppercased, then looked up in the type mapping by its lowercase form with
default STRING; descriptions are carried over when present and the required
list is copied when present. -/
def convertToolsToGeminiFormat (available_tools : List ToolDescriptor) :
    List GeminiFunctionDeclaration :=
  available_tools.map fun tool =>
    let params : GeminiParameters :=
      match tool.input_schema with
      | none => ⟨"OBJECT", [], []⟩
      | some schema =>
        let props :=
          match schema.properties with
          | none => []
          | some ps => ps.map fun kv =>
            let prop_type0 := strUpper (kv.2.type.getD "STRING")
            let prop_type := (geminiTypeMapping (strLower prop_type0)).getD "STRING"
            (kv.1, GeminiPropSchema.mk prop_type kv.2.description)
        ⟨"OBJECT", props, schema.required.getD []⟩
    ⟨tool.name, tool.description, params⟩

/-!
## Client orchestration, terminal loop, startup, transcript store
-/

/-- MCPClient.process_query: delegate to the selected service (its vendor
call may fail, modelled by Except), then run the mediator over the response
text with a fallible call_tool.  The transcript from the service is
returned unchanged. -/
def clientProcessQuery
    (llm : String → Option (List ChatMsg) → Except String (String × List ChatMsg))
    (call_tool : String → JVal → Except String String)
    (query : String) (previous_messages : Option (List ChatMsg)) :
    Except String (String × List ChatMsg) :=
  match llm query previous_messages with
  | .error e => .error e
  | .ok (response_text, messages) =>
    match processMatchesE call_tool response_text (findToolCalls response_text) with
    | .ok t => .ok (t, messages)
    | .error e => .error e

/-- One iteration of the chat_loop body for a non-quit input: the input is
stripped; refresh clears the transcript; otherwise process_query runs and
on success its messages replace the transcript, while any exception is
caught and leaves the transcript untouched. -/
def chatStep (pq : String → List ChatMsg → Except String (String × List ChatMsg))
    (previous_messages : List ChatMsg) (rawQuery : String) : List ChatMsg :=
  let query := pyStrip rawQuery
  if strLower query = "refresh" then []
  else
    match pq query previous_messages with
    | .ok r => r.2
    | .error _ => previous_messages

/-- The chat loop over a finite list of inputs: quit stops, every other
input goes through chatStep; the final transcript is returned. -/
def chatLoopRun (pq : String → List ChatMsg → Except String (String × List ChatMsg)) :
    List ChatMsg → List String → List ChatMsg
  | previous_messages, [] => previous_messages
  | previous_messages, q :: qs =>
    if strLower (pyStrip q) = "quit" then previous_messages
    else chatLoopRun pq (chatStep pq previous_messages q) qs

/-- The service selected by MCPClient.__init__. -/
inductive LlmServiceKind
  | anthropic
  | openai
  | gemini
deriving DecidableEq

/-- MCPClient.__init__: construct the service for a known provider name and
raise ValueError for any other. -/
def mcpClientInit (llm_provider : String) : Except String LlmServiceKind :=
  if llm_provider = "anthropic" then .ok .anthropic
  else if llm_provider = "openai" then .ok .openai
  else if llm_provider = "gemini" then .ok .gemini
  else .error ("Unsupported LLM provider: " ++ llm_provider ++
    ". Use \x27anthropic\x27, \x27openai\x27, or \x27gemini\x27.")

/-- The outcome of program startup, up to the point where the connection to
the tool server would be attempted. -/
inductive StartupOutcome
  | usageExit
  | initFailure (msg : String)
  | started (svc : LlmServiceKind) (server : String)
deriving DecidableEq

/-- main: with fewer than two argv entries print usage and exit; otherwise
take the provider from argv[2] lowercased when it is one of the three known
names and the default anthropic in every other case (including an
unrecognised name), construct the client, and only then attempt
connect_to_server(argv[1]) — the started outcome marks that a connection
attempt follows. -/
def mainStartup (argv : List String) : StartupOutcome :=
  match argv with
  | _prog :: server :: rest =>
    let llm_provider :=
      match rest with
      | arg :: _ =>
        if strLower arg = "anthropic" ∨ strLower arg = "openai" ∨ strLower arg = "gemini"
        then strLower arg else "anthropic"
      | [] => "anthropic"
    match mcpClientInit llm_provider with
    | .ok svc => .started svc server
    | .error m => .initFailure m
  | _ => .usageExit

/-- A transcript entry of the src/03 DatabaseChatAgent. -/
structure HistoryMsg where
  role : String
  content : String
deriving DecidableEq

/-- The transcript update at the end of DatabaseChatAgent.chat: append the
user message and the assistant response, then truncate to the most recent
twenty entries when the bound is exceeded (Python slice [-20:]). -/
def chatHistoryAppend (conversation_history : List HistoryMsg)
    (message response : String) : List HistoryMsg :=
  let h := conversation_history ++ [⟨"user", message⟩, ⟨"assistant", response⟩]
  if h.length > 20 then h.drop (h.length - 20) else h

/-- Concatenation of a list of strings, used to state the shape of the
mediator output text. -/
def concatStrings : List String → String
  | [] => ""
  | s :: rest => s ++ concatStrings rest

/-!
## Predicates and renderings used in the claim statements
-/

/-- A name accepted by the marker pattern class [\w\-]+ (ASCII level):
nonempty and made of word characters. -/
def wordName (s : String) : Bool := !s.data.isEmpty && s.data.all isWordChar

/-- A plain printable ASCII character that survives the marker round trip:
not a quote of either kind, not a backslash (so Python repr leaves it
alone and quote normalisation cannot corrupt it), and not a closing
bracket (so the lazy capture is not cut short). -/
def plainChar (c : Char) : Bool :=
  decide (32 ≤ c.toNat) && decide (c.toNat ≤ 126) &&
    (c != charSQuote) && (c != charDQuote) && (c != charBackslash) && (c != ']')

/-- A flat value whose dict display form survives the round trip: a plain
string or an integer.  Booleans and None render as True/False/None, which
json.loads rejects. -/
def plainVal : PyVal → Bool
  | .str s => s.data.all plainChar
  | .int _ => true
  | _ => false

/-- An argument mapping whose keys are plain strings and whose values are
plain. -/
def plainArgs (args : List (String × PyVal)) : Bool :=
  args.all fun kv => kv.1.data.all plainChar && plainVal kv.2

/-- The quote-normalised JSON rendering of a plain flat value (the image of
its Python repr under the mediator's quote replacement). -/
def jsonValData : PyVal → List Char
  | .str s => charDQuote :: s.data ++ [charDQuote]
  | .int n => (intReprStr n).data
  | .bool b => if b then ('T' :: 'r' :: 'u' :: 'e' :: []) else ('F' :: 'a' :: 'l' :: 's' :: 'e' :: [])
  | .null => ('N' :: 'o' :: 'n' :: 'e' :: [])

/-- The quote-normalised JSON rendering of the members of a flat mapping. -/
def jsonMembersData : List (String × PyVal) → List Char
  | [] => []
  | (k, v) :: rest =>
    charDQuote :: k.data ++ [charDQuote] ++ (':' :: ' ' :: []) ++ jsonValData v ++
      (match rest with
       | [] => []
       | _ :: _ => ',' :: ' ' :: jsonMembersData rest)

/-- A continuation on which the number grammar stops cleanly: empty, or
starting with a character that extends neither the integer part nor a
fraction nor an exponent. -/
def numStopper : List Char → Prop
  | [] => True
  | d :: _ => d.isDigit = false ∧ d ≠ '.' ∧ d ≠ 'e' ∧ d ≠ 'E'

/-- The projection of a property type name that the (amended) catalog claim
describes: the lookup is case-insensitive, every name whose ASCII
lowercasing is not one of the five mapped JSON-Schema names — and a missing
name — yields STRING. -/
def specGeminiType (t : Option String) : String :=
  match t with
  | none => "STRING"
  | some s =>
    if strLower s = "number" then "NUMBER"
    else if strLower s = "integer" then "INTEGER"
    else if strLower s = "boolean" then "BOOLEAN"
    else if strLower s = "array" then "ARRAY"
    else if strLower s = "object" then "OBJECT"
    else "STRING"

/-- The pairwise embedding of a flat argument mapping into the JSON object
the mediator should reconstruct. -/
def pyArgsToJson (args : List (String × PyVal)) : List (String × JVal) :=
  args.map fun kv => (kv.1, pyToJson kv.2)

/-!
## General helper lemmas
-/

theorem strData_append (a b : String) : (a ++ b).data = a.data ++ b.data := rfl

theorem strExt {a b : String} (h : a.data = b.data) : a = b := by
  cases a; cases b; exact congrArg String.mk h

theorem strEta (s : String) : String.mk s.data = s := by
  cases s; rfl

theorem strAppend_empty (s : String) : s ++ "" = s :=
  strExt (List.append_nil s.data)

theorem strAppend_assoc (a b c : String) : a ++ b ++ c = a ++ (b ++ c) :=
  strExt (by simp only [strData_append, List.append_assoc])

theorem charLower_charUpper (c : Char) : charLower (charUpper c) = charLower c := by
  unfold charUpper
  split <;> rfl

theorem strLower_strUpper (s : String) : strLower (strUpper s) = strLower s := by
  refine strExt ?_
  show (s.data.map charUpper).map charLower = s.data.map charLower
  rw [List.map_map]
  exact List.map_congr_left fun a _ => charLower_charUpper a

/-!
## Claim C8: the Gemini tool-catalog projector
-/

theorem geminiType_spec (t : Option String) :
    (geminiTypeMapping (strLower (strUpper (t.getD "STRING")))).getD "STRING" =
      specGeminiType t := by
  cases t with
  | none => rfl
  | some s =>
    rw [strLower_strUpper]
    simp only [Option.getD_some, specGeminiType, geminiTypeMapping]
    split_ifs <;> rfl

/-- Claim C8 (counterexample to the claim as stated): the claim sends every
type name other than the five exact JSON-Schema names number, integer,
boolean, array, object to STRING; but on the type name BOOLEAN — which is
none of those five — the projector produces BOOLEAN, not STRING, because
the lookup lowercases the name first. -/
theorem geminiCatalogProjection_counterexample :
    (("BOOLEAN" : String) ≠ "number" ∧ ("BOOLEAN" : String) ≠ "integer" ∧
     ("BOOLEAN" : String) ≠ "boolean" ∧ ("BOOLEAN" : String) ≠ "array" ∧
     ("BOOLEAN" : String) ≠ "object") ∧
    convertToolsToGeminiFormat
        [⟨"t", "d", some ⟨some [("x", ⟨some "BOOLEAN", none⟩)], none⟩⟩] =
      [⟨"t", "d", ⟨"OBJECT", [("x", ⟨"BOOLEAN", none⟩)], []⟩⟩] ∧
    ("BOOLEAN" : String) ≠ "STRING" := by
  refine ⟨⟨?_, ?_, ?_, ?_, ?_⟩, rfl, ?_⟩ <;> decide

/-- Claim C8 (amended: the type-name lookup is case-insensitive): for every
tool descriptor property the projector maps a type name whose ASCII
lowercasing is number, integer, boolean, array or object to the
corresponding uppercase vendor enum name, and every other or missing type
name to STRING; the property description is preserved, and the schema's
required list is copied (empty when absent). -/
theorem geminiCatalogProjection_amended (available_tools : List ToolDescriptor) :
    convertToolsToGeminiFormat available_tools = available_tools.map (fun tool =>
      GeminiFunctionDeclaration.mk tool.name tool.description
        (GeminiParameters.mk "OBJECT"
          (((tool.input_schema.map fun schema => schema.properties.getD []).getD []).map
            fun kv => (kv.1, GeminiPropSchema.mk (specGeminiType kv.2.type) kv.2.description))
          ((tool.input_schema.map fun schema => schema.required.getD []).getD []))) := by
  unfold convertToolsToGeminiFormat
  refine List.map_congr_left fun tool _ => ?_
  cases hts : tool.input_schema with
  | none => simp [hts]
  | some schema =>
    cases hps : schema.properties with
    | none => simp [hts, hps]
    | some ps =>
      have hmaps : ps.map (fun kv =>
          (kv.1, GeminiPropSchema.mk
            ((geminiTypeMapping (strLower (strUpper (kv.2.type.getD "STRING")))).getD "STRING")
            kv.2.description)) =
          ps.map (fun kv =>
            (kv.1, GeminiPropSchema.mk (specGeminiType kv.2.type) kv.2.description)) :=
        List.map_congr_left fun kv _ => by rw [geminiType_spec]
      simp [hts, hps, hmaps]

/-!
## Claim C2: unknown provider at startup
-/

/-- Claim C2 (counterexample to the claim as stated): the provider string
foobar names none of the three providers, yet startup with it does not
fail: main falls back to the default anthropic provider and proceeds to the
connection attempt. -/
theorem unknownProvider_counterexample :
    (("foobar" : String) ≠ "anthropic" ∧ ("foobar" : String) ≠ "openai" ∧
     ("foobar" : String) ≠ "gemini") ∧
    mainStartup ["client.py", "server.py", "foobar"] =
      .started .anthropic "server.py" := by
  exact ⟨⟨by decide, by decide, by decide⟩, rfl⟩

/-- Claim C2 (amended): constructing MCPClient directly with a provider
name outside the three known ones raises ValueError — and in main the
connection is only attempted after construction succeeds — but the CLI
startup path never passes an unknown name through: main replaces any
unrecognised provider argument by the default anthropic and proceeds to
the connection attempt. -/
theorem unknownProvider_amended (p prog server : String)
    (h1 : strLower p ≠ "anthropic") (h2 : strLower p ≠ "openai")
    (h3 : strLower p ≠ "gemini") :
    mcpClientInit p = .error ("Unsupported LLM provider: " ++ p ++
      ". Use \x27anthropic\x27, \x27openai\x27, or \x27gemini\x27.") ∧
    mainStartup [prog, server, p] = .started .anthropic server := by
  have hp1 : p ≠ "anthropic" := fun h => h1 (by rw [h]; rfl)
  have hp2 : p ≠ "openai" := fun h => h2 (by rw [h]; rfl)
  have hp3 : p ≠ "gemini" := fun h => h3 (by rw [h]; rfl)
  constructor
  · unfold mcpClientInit
    rw [if_neg hp1, if_neg hp2, if_neg hp3]
  · simp [mainStartup, mcpClientInit, h1, h2, h3]

/-- Witness for the amended claim C2 at the concrete provider string
foobar. -/
theorem unknownProvider_witness :
    (strLower "foobar" ≠ "anthropic" ∧ strLower "foobar" ≠ "openai" ∧
     strLower "foobar" ≠ "gemini") ∧
    mainStartup ["client.py", "srv.py", "foobar"] = .started .anthropic "srv.py" :=
  ⟨⟨by decide, by decide, by decide⟩,
    (unknownProvider_amended "foobar" "client.py" "srv.py"
      (by decide) (by decide) (by decide)).2⟩

/-!
## Claim C7: transcript eviction
-/

/-- Claim C7: when appending the turn's two messages pushes the transcript
past the window of twenty, the store keeps exactly the most recent twenty
entries: the result is the final segment of the appended history (so the
relative order is the original one, the oldest entries are dropped, and
the kept entries are unmodified), and its length is exactly twenty. -/
theorem transcriptEviction (conversation_history : List HistoryMsg)
    (message response : String)
    (h : (conversation_history ++ [HistoryMsg.mk "user" message, HistoryMsg.mk "assistant" response]).length > 20) :
    chatHistoryAppend conversation_history message response =
      (conversation_history ++ [HistoryMsg.mk "user" message, HistoryMsg.mk "assistant" response]).drop
        ((conversation_history ++ [HistoryMsg.mk "user" message, HistoryMsg.mk "assistant" response]).length - 20) ∧
    (chatHistoryAppend conversation_history message response).length = 20 ∧
    (conversation_history ++ [HistoryMsg.mk "user" message, HistoryMsg.mk "assistant" response]).take
        ((conversation_history ++ [HistoryMsg.mk "user" message, HistoryMsg.mk "assistant" response]).length - 20) ++
      chatHistoryAppend conversation_history message response =
      conversation_history ++ [HistoryMsg.mk "user" message, HistoryMsg.mk "assistant" response] := by
  have heq : chatHistoryAppend conversation_history message response =
      (conversation_history ++ [HistoryMsg.mk "user" message, HistoryMsg.mk "assistant" response]).drop
        ((conversation_history ++ [HistoryMsg.mk "user" message, HistoryMsg.mk "assistant" response]).length - 20) := by
    unfold chatHistoryAppend
    rw [if_pos h]
  refine ⟨heq, ?_, ?_⟩
  · rw [heq, List.length_drop]
    omega
  · rw [heq, List.take_append_drop]

/-- Witness for claim C7 on a nineteen-entry history. -/
theorem transcriptEviction_witness :
    ((List.replicate 19 (HistoryMsg.mk "user" "x") ++
        [HistoryMsg.mk "user" "m", HistoryMsg.mk "assistant" "r"]).length > 20) ∧
    (chatHistoryAppend (List.replicate 19 (HistoryMsg.mk "user" "x")) "m" "r").length = 20 :=
  ⟨by decide, (transcriptEviction (List.replicate 19 (HistoryMsg.mk "user" "x")) "m" "r" (by decide)).2.1⟩

/-!
## Claim C9: turn-failure atomicity of the chat loop
-/

/-- Claim C9: for a query that is neither quit nor refresh, if
process_query fails on it then the chat loop keeps the transcript exactly
as it was before the turn, and processing continues with the next query on
that unchanged transcript. -/
theorem turnFailureAtomicity
    (pq : String → List ChatMsg → Except String (String × List ChatMsg))
    (previous_messages : List ChatMsg) (q : String) (qs : List String) (e : String)
    (hq1 : strLower (pyStrip q) ≠ "quit") (hq2 : strLower (pyStrip q) ≠ "refresh")
    (herr : pq (pyStrip q) previous_messages = .error e) :
    chatStep pq previous_messages q = previous_messages ∧
    chatLoopRun pq previous_messages (q :: qs) = chatLoopRun pq previous_messages qs := by
  have hstep : chatStep pq previous_messages q = previous_messages := by
    unfold chatStep
    rw [if_neg hq2, herr]
  refine ⟨hstep, ?_⟩
  show (if strLower (pyStrip q) = "quit" then previous_messages
        else chatLoopRun pq (chatStep pq previous_messages q) qs) = _
  rw [if_neg hq1, hstep]

/-- Witness for claim C9: a process_query that always fails leaves an
empty transcript empty. -/
theorem turnFailureAtomicity_witness :
    (strLower (pyStrip "hello") ≠ "quit" ∧ strLower (pyStrip "hello") ≠ "refresh" ∧
     (fun (_ : String) (_ : List ChatMsg) =>
        (Except.error "boom" : Except String (String × List ChatMsg)))
       (pyStrip "hello") [] = .error "boom") ∧
    chatStep (fun _ _ => .error "boom") [] "hello" = [] :=
  ⟨⟨by decide, by decide, rfl⟩,
    (turnFailureAtomicity (fun _ _ => .error "boom") [] "hello" [] "boom"
      (by decide) (by decide) rfl).1⟩

/-!
## Claims C6 and C10: adapter transcript shapes
-/

/-- Claim C6: with an empty or absent prior transcript, each adapter
returns a transcript of length one (the new user message) plus the
vendor-specific turn extension: zero for Anthropic and Gemini, and for
OpenAI zero or one depending on whether the vendor reply carried tool
calls. -/
theorem adapterFreshTranscriptLength (query : String) (prev : Option (List ChatMsg))
    (aResp : AnthropicResponse) (gResp : GeminiResponse) (oResp : OpenAIMessage)
    (hprev : prev = none ∨ prev = some []) :
    (anthropicProcessQuery aResp query prev).2.length = 1 ∧
    (geminiProcessQuery gResp query prev).2.length = 1 ∧
    (∀ t msgs, openaiProcessQuery oResp query prev = .ok (t, msgs) →
      msgs.length = if oResp.tool_calls.isEmpty then 1 else 2) := by
  have hp : prev.getD [] = [] := by rcases hprev with rfl | rfl <;> rfl
  refine ⟨?_, ?_, ?_⟩
  · unfold anthropicProcessQuery
    simp [hp]
  · unfold geminiProcessQuery
    simp [hp]
  · intro t msgs hok
    unfold openaiProcessQuery at hok
    rw [hp] at hok
    by_cases he : oResp.tool_calls.isEmpty
    · rw [if_pos he] at hok
      cases hc : oResp.content with
      | some c =>
        rw [hc] at hok
        simp only [Except.ok.injEq, Prod.mk.injEq] at hok
        rw [if_pos he, ← hok.2]
        rfl
      | none =>
        rw [hc] at hok
        exact absurd hok (by simp)
    · rw [if_neg he] at hok
      cases hmap : oResp.tool_calls.mapM (fun tc =>
          match jsonLoads tc.arguments with
          | some v => Except.ok (formatToolCallMarker tc.name
              (pyJsonReprWith (tc.arguments.data.length + 2) v))
          | none => Except.error "json.decoder.JSONDecodeError") with
      | ok markers =>
        rw [hmap] at hok
        simp only [Except.ok.injEq, Prod.mk.injEq] at hok
        rw [if_neg he, ← hok.2]
        rfl
      | error e =>
        rw [hmap] at hok
        exact absurd hok (by simp)

/-- Witness for claim C6: a reply with one tool call yields a two-message
transcript from the OpenAI adapter. -/
theorem adapterFreshTranscriptLength_witness :
    ((none : Option (List ChatMsg)) = none ∨ (none : Option (List ChatMsg)) = some []) ∧
    ([mkUserMsg "hi", ChatMsg.mk "assistant" (some "ok") [⟨"1", "f", "\x7b\x7d"⟩]] :
        List ChatMsg).length = 2 :=
  ⟨Or.inl rfl,
    (adapterFreshTranscriptLength "hi" none ⟨[]⟩ ⟨[]⟩ ⟨some "ok", [⟨"1", "f", "\x7b\x7d"⟩]⟩
      (Or.inl rfl)).2.2 _ _ rfl⟩

/-- Claim C10: no adapter reshapes the prior transcript it receives: each
returns the prior messages unchanged as a prefix, followed by the new user
message, and for OpenAI additionally the assistant message exactly when
the reply carried tool calls.  (In this pure embedding the prior list is a
value, so returning it as an unchanged prefix is the content of the
no-mutation claim.) -/
theorem adapterTranscriptExtension (prior : List ChatMsg) (query : String)
    (aResp : AnthropicResponse) (gResp : GeminiResponse) (oResp : OpenAIMessage) :
    (anthropicProcessQuery aResp query (some prior)).2 = prior ++ [mkUserMsg query] ∧
    (geminiProcessQuery gResp query (some prior)).2 = prior ++ [mkUserMsg query] ∧
    (∀ t msgs, openaiProcessQuery oResp query (some prior) = .ok (t, msgs) →
      msgs = prior ++ [mkUserMsg query] ++
        (if oResp.tool_calls.isEmpty then []
         else [ChatMsg.mk "assistant" oResp.content oResp.tool_calls])) := by
  refine ⟨rfl, rfl, ?_⟩
  intro t msgs hok
  unfold openaiProcessQuery at hok
  by_cases he : oResp.tool_calls.isEmpty
  · rw [if_pos he] at hok
    cases hc : oResp.content with
    | some c =>
      rw [hc] at hok
      simp only [Except.ok.injEq, Prod.mk.injEq] at hok
      rw [if_pos he, ← hok.2]
      simp
    | none =>
      rw [hc] at hok
      exact absurd hok (by simp)
  · rw [if_neg he] at hok
    cases hmap : oResp.tool_calls.mapM (fun tc =>
        match jsonLoads tc.arguments with
        | some v => Except.ok (formatToolCallMarker tc.name
            (pyJsonReprWith (tc.arguments.data.length + 2) v))
        | none => Except.error "json.decoder.JSONDecodeError") with
    | ok markers =>
      rw [hmap] at hok
      simp only [Except.ok.injEq, Prod.mk.injEq] at hok
      rw [if_neg he, ← hok.2]
      simp
    | error e =>
      rw [hmap] at hok
      exact absurd hok (by simp)

/-- Witness for claim C10 on a one-message prior transcript. -/
theorem adapterTranscriptExtension_witness :
    ([mkUserMsg "a", mkUserMsg "hi", ChatMsg.mk "assistant" none [⟨"1", "f", "2"⟩]] :
        List ChatMsg) =
      [mkUserMsg "a"] ++ [mkUserMsg "hi"] ++
        (if ([⟨"1", "f", "2"⟩] : List ToolCallRec).isEmpty then []
         else [ChatMsg.mk "assistant" none [⟨"1", "f", "2"⟩]]) :=
  (adapterTranscriptExtension [mkUserMsg "a"] "hi" ⟨[]⟩ ⟨[]⟩
    ⟨none, [⟨"1", "f", "2"⟩]⟩).2.2 _ _ rfl

/-!
## Mediator lemmas: the processing fold and the scanner
-/

theorem processMatches_fst (call_tool : String → JVal → String) :
    ∀ (ms : List (Nat × String × String)) (acc : String),
      (processMatches call_tool acc ms).1 =
        acc ++ concatStrings (ms.map fun m =>
          "\n[tool results: " ++ call_tool m.2.1 (parseToolArgs m.2.2) ++ "]") := by
  intro ms
  induction ms with
  | nil =>
    intro acc
    show acc = acc ++ concatStrings []
    rw [show concatStrings [] = "" from rfl, strAppend_empty]
  | cons m ms ih =>
    intro acc
    show (processMatches call_tool
        (acc ++ "\n[tool results: " ++ call_tool m.2.1 (parseToolArgs m.2.2) ++ "]") ms).1 = _
    rw [ih]
    refine strExt ?_
    simp [strData_append, concatStrings, List.append_assoc]

theorem processMatches_snd (call_tool : String → JVal → String) :
    ∀ (ms : List (Nat × String × String)) (acc : String),
      (processMatches call_tool acc ms).2 =
        ms.map fun m => (m.2.1, parseToolArgs m.2.2) := by
  intro ms
  induction ms with
  | nil => intro acc; rfl
  | cons m ms ih =>
    intro acc
    show (m.2.1, parseToolArgs m.2.2) :: (processMatches call_tool _ ms).2 = _
    rw [ih]
    rfl

theorem processToolCalls_fst (call_tool : String → JVal → String) (response_text : String) :
    (processToolCalls call_tool response_text).1 =
      response_text ++ concatStrings ((findToolCalls response_text).map fun m =>
        "\n[tool results: " ++ call_tool m.2.1 (parseToolArgs m.2.2) ++ "]") :=
  processMatches_fst call_tool (findToolCalls response_text) response_text

theorem processToolCalls_snd (call_tool : String → JVal → String) (response_text : String) :
    (processToolCalls call_tool response_text).2 =
      (findToolCalls response_text).map fun m => (m.2.1, parseToolArgs m.2.2) :=
  processMatches_snd call_tool (findToolCalls response_text) response_text

theorem findToolCallsAux_zero (pos : Nat) (s : List Char) :
    findToolCallsAux 0 pos s = [] := rfl

theorem findToolCallsAux_succ (f pos : Nat) (s : List Char) :
    findToolCallsAux (f + 1) pos s =
      match tryMatchAt s with
      | some (nm, args, rest) =>
        (pos, nm, args) :: findToolCallsAux f (pos + (s.length - rest.length)) rest
      | none =>
        match s with
        | [] => []
        | _ :: cs => findToolCallsAux f (pos + 1) cs := rfl

theorem matchLiteral_sound :
    ∀ (p s r : List Char), matchLiteral p s = some r → s = p ++ r := by
  intro p
  induction p with
  | nil =>
    intro s r h
    simp only [matchLiteral, Option.some.injEq] at h
    simpa using h
  | cons l ls ih =>
    intro s r h
    cases s with
    | nil => exact absurd h (by simp [matchLiteral])
    | cons c cs =>
      unfold matchLiteral at h
      by_cases hc : c = l
      · rw [if_pos hc] at h
        rw [hc, List.cons_append]
        exact congrArg _ (ih cs r h)
      · rw [if_neg hc] at h
        exact absurd h (by simp)

theorem takeWordChars_sound :
    ∀ s : List Char, s = (takeWordChars s).1 ++ (takeWordChars s).2 := by
  intro s
  induction s with
  | nil => rfl
  | cons c cs ih =>
    unfold takeWordChars
    by_cases h : isWordChar c
    · simp only [h, if_true, List.cons_append]
      exact congrArg _ ih
    · simp [h]

theorem scanArgs_sound :
    ∀ (s acc out r : List Char), scanArgs acc s = some (out, r) →
      acc.reverse ++ s = out ++ ']' :: r := by
  intro s
  induction s with
  | nil => intro acc out r h; exact absurd h (by simp [scanArgs])
  | cons d ds ih =>
    intro acc out r h
    unfold scanArgs at h
    by_cases h1 : d = ']'
    · rw [if_pos h1] at h
      simp only [Option.some.injEq, Prod.mk.injEq] at h
      rw [← h.1, ← h.2, h1]
    · rw [if_neg h1] at h
      by_cases h2 : d = '\n'
      · rw [if_pos h2] at h; exact absurd h (by simp)
      · rw [if_neg h2] at h
        have := ih (d :: acc) out r h
        rw [List.reverse_cons, List.append_assoc] at this
        simpa using this

theorem formatMarker_data (nm args : String) :
    (formatToolCallMarker nm args).data =
      litToolCall ++ (nm.data ++ (litWithArgs ++ (args.data ++ (']' :: [])))) := by
  simp only [formatToolCallMarker, strData_append, List.append_assoc]
  rfl

theorem tryMatchAt_sound :
    ∀ (s : List Char) (nm args : String) (rest : List Char),
      tryMatchAt s = some (nm, args, rest) →
      s = (formatToolCallMarker nm args).data ++ rest := by
  intro s nm args rest h
  unfold tryMatchAt at h
  cases h1 : matchLiteral litToolCall s with
  | none => rw [h1] at h; exact absurd h (by simp)
  | some s1 =>
    rw [h1] at h
    dsimp only at h
    by_cases h2 : (takeWordChars s1).1.isEmpty
    · rw [if_pos h2] at h; exact absurd h (by simp)
    · rw [if_neg h2] at h
      cases h3 : matchLiteral litWithArgs (takeWordChars s1).2 with
      | none => rw [h3] at h; exact absurd h (by simp)
      | some s3 =>
        rw [h3] at h
        dsimp only at h
        cases s3 with
        | nil => exact absurd h (by simp)
        | cons c cs =>
          dsimp only at h
          by_cases h4 : c = '\n'
          · rw [if_pos h4] at h; exact absurd h (by simp)
          · rw [if_neg h4] at h
            cases h5 : scanArgs [c] cs with
            | none => rw [h5] at h; exact absurd h (by simp)
            | some pr =>
              obtain ⟨argsl, rest2⟩ := pr
              rw [h5] at h
              dsimp only at h
              simp only [Option.some.injEq, Prod.mk.injEq] at h
              obtain ⟨hnm, hargs, hrest⟩ := h
              subst hnm
              subst hargs
              subst hrest
              have e1 : s = litToolCall ++ s1 := matchLiteral_sound _ _ _ h1
              have e2 : s1 = (takeWordChars s1).1 ++ (takeWordChars s1).2 :=
                takeWordChars_sound s1
              have e3 : (takeWordChars s1).2 = litWithArgs ++ (c :: cs) :=
                matchLiteral_sound _ _ _ h3
              have e4 : c :: cs = argsl ++ ']' :: rest2 := by
                have := scanArgs_sound cs [c] argsl rest2 h5
                simpa using this
              rw [formatMarker_data]
              conv_lhs => rw [e1, e2, e3, e4]
              simp [List.append_assoc]

theorem tryMatchAt_rest_lt :
    ∀ (s : List Char) (nm args : String) (rest : List Char),
      tryMatchAt s = some (nm, args, rest) → rest.length < s.length := by
  intro s nm args rest h
  have hs := tryMatchAt_sound s nm args rest h
  have h12 : litToolCall.length = 12 := rfl
  rw [hs, formatMarker_data]
  simp only [List.length_append]
  omega

theorem findAux_pos_le :
    ∀ (fuel : Nat) (s : List Char) (pos : Nat) (m : Nat × String × String),
      m ∈ findToolCallsAux fuel pos s → pos ≤ m.1 := by
  intro fuel
  induction fuel with
  | zero => intro s pos m h; rw [findToolCallsAux_zero] at h; exact absurd h (by simp)
  | succ f ih =>
    intro s pos m h
    rw [findToolCallsAux_succ] at h
    cases htm : tryMatchAt s with
    | some t =>
      obtain ⟨nm, args, rest⟩ := t
      rw [htm] at h
      dsimp only at h
      rcases List.mem_cons.mp h with h | h
      · rw [h]
      · have := ih rest (pos + (s.length - rest.length)) m h
        omega
    | none =>
      rw [htm] at h
      dsimp only at h
      cases s with
      | nil => exact absurd h (by simp)
      | cons c cs =>
        have := ih cs (pos + 1) m h
        omega

theorem drop_append_len {α : Type} (l1 l2 : List α) (j : Nat) :
    (l1 ++ l2).drop (l1.length + j) = l2.drop j := by
  induction l1 with
  | nil => simp
  | cons c l1 ih =>
    show (c :: (l1 ++ l2)).drop (l1.length + 1 + j) = l2.drop j
    rw [show l1.length + 1 + j = (l1.length + j) + 1 from by omega]
    simp only [List.drop_succ_cons]
    exact ih

theorem findAux_occ :
    ∀ (fuel : Nat) (s : List Char) (pos : Nat) (m : Nat × String × String),
      m ∈ findToolCallsAux fuel pos s →
      ∃ tail, s.drop (m.1 - pos) = (formatToolCallMarker m.2.1 m.2.2).data ++ tail := by
  intro fuel
  induction fuel with
  | zero => intro s pos m h; rw [findToolCallsAux_zero] at h; exact absurd h (by simp)
  | succ f ih =>
    intro s pos m h
    rw [findToolCallsAux_succ] at h
    cases htm : tryMatchAt s with
    | some t =>
      obtain ⟨nm, args, rest⟩ := t
      rw [htm] at h
      dsimp only at h
      have hsound := tryMatchAt_sound s nm args rest htm
      rcases List.mem_cons.mp h with h | h
      · refine ⟨rest, ?_⟩
        rw [h]
        simpa using hsound
      · have hge := findAux_pos_le f rest (pos + (s.length - rest.length)) m h
        obtain ⟨tail, htail⟩ := ih rest (pos + (s.length - rest.length)) m h
        refine ⟨tail, ?_⟩
        have hmlen : (formatToolCallMarker nm args).data.length = s.length - rest.length := by
          have := congrArg List.length hsound
          simp only [List.length_append] at this
          omega
        rw [hsound, show m.1 - pos = (formatToolCallMarker nm args).data.length +
              (m.1 - (pos + (s.length - rest.length))) from by omega,
            drop_append_len]
        exact htail
    | none =>
      rw [htm] at h
      dsimp only at h
      cases s with
      | nil => exact absurd h (by simp)
      | cons c cs =>
        have hge := findAux_pos_le f cs (pos + 1) m h
        obtain ⟨tail, htail⟩ := ih cs (pos + 1) m h
        refine ⟨tail, ?_⟩
        rw [show m.1 - pos = (m.1 - (pos + 1)) + 1 from by omega]
        simpa using htail

theorem findAux_sorted :
    ∀ (fuel : Nat) (s : List Char) (pos : Nat),
      (findToolCallsAux fuel pos s).Pairwise (fun a b => a.1 < b.1) := by
  intro fuel
  induction fuel with
  | zero => intro s pos; rw [findToolCallsAux_zero]; exact List.Pairwise.nil
  | succ f ih =>
    intro s pos
    rw [findToolCallsAux_succ]
    cases htm : tryMatchAt s with
    | some t =>
      obtain ⟨nm, args, rest⟩ := t
      dsimp only
      refine List.Pairwise.cons ?_ (ih rest _)
      intro b hb
      have h1 := findAux_pos_le f rest (pos + (s.length - rest.length)) b hb
      have h2 := tryMatchAt_rest_lt s nm args rest htm
      omega
    | none =>
      dsimp only
      cases s with
      | nil => exact List.Pairwise.nil
      | cons c cs => exact ih cs (pos + 1)

/-!
## Claims C4, C5, C3: the mediator contract
-/

/-- Claim C4: the mediator returns the adapter text with exactly one
tool-results segment appended per marker matched, in match order; in
particular a text with no marker is returned unchanged and call_tool is
never invoked (the recorded invocation list is empty). -/
theorem mediatorOutputShape (call_tool : String → JVal → String) (response_text : String) :
    (processToolCalls call_tool response_text).1 =
      response_text ++ concatStrings ((findToolCalls response_text).map fun m =>
        "\n[tool results: " ++ call_tool m.2.1 (parseToolArgs m.2.2) ++ "]") ∧
    (findToolCalls response_text = [] →
      processToolCalls call_tool response_text = (response_text, [])) := by
  refine ⟨processToolCalls_fst call_tool response_text, ?_⟩
  intro h
  unfold processToolCalls
  rw [h]
  rfl

/-- Witness for claim C4 (end-to-end scenario 1): the markerless text
Hello! passes through unchanged with no tool invocation. -/
theorem mediatorOutputShape_witness :
    findToolCalls "Hello!" = [] ∧
    processToolCalls (fun _ _ => "r") "Hello!" = ("Hello!", []) :=
  ⟨rfl, (mediatorOutputShape (fun _ _ => "r") "Hello!").2 rfl⟩

/-- Claim C5: the mediator performs one call_tool invocation per marker, in
the order of the scanned match list; that list is ordered by strictly
increasing match position, and at each recorded position the response text
really carries the corresponding marker as a substring.  Together these
state that invocations follow the left-to-right textual order of the
markers. -/
theorem mediatorCallOrder (call_tool : String → JVal → String) (response_text : String) :
    (processToolCalls call_tool response_text).2 =
      (findToolCalls response_text).map (fun m => (m.2.1, parseToolArgs m.2.2)) ∧
    (findToolCalls response_text).Pairwise (fun a b => a.1 < b.1) ∧
    (∀ m ∈ findToolCalls response_text, ∃ tail,
      response_text.data.drop m.1 = (formatToolCallMarker m.2.1 m.2.2).data ++ tail) := by
  refine ⟨processToolCalls_snd call_tool response_text,
    findAux_sorted _ _ _, fun m hm => ?_⟩
  have := findAux_occ _ _ _ _ hm
  simpa using this

/-- Witness for claim C5 (end-to-end scenario 3) on a text with two
markers: the second match sits at position 28 and the marker text is
present there. -/
theorem mediatorCallOrder_witness :
    ((28, "y", "2") ∈
      findToolCalls "A[Tool call: x with args 1]B[Tool call: y with args 2]") ∧
    ∃ tail,
      ("A[Tool call: x with args 1]B[Tool call: y with args 2]" : String).data.drop 28 =
        (formatToolCallMarker "y" "2").data ++ tail :=
  ⟨by decide,
    (mediatorCallOrder (fun _ _ => "")
      "A[Tool call: x with args 1]B[Tool call: y with args 2]").2.2
      (28, "y", "2") (by decide)⟩

/-- Claim C3: a marker whose captured argument text is not valid JSON after
quote normalisation yields a call_tool invocation with the empty argument
mapping — the parse failure is absorbed, no exception escapes — and the
scan still processes every marker (one invocation per match). -/
theorem malformedArgsDegrade (call_tool : String → JVal → String) (response_text : String)
    (m : Nat × String × String) (hm : m ∈ findToolCalls response_text)
    (hbad : jsonLoads (replaceQuotes m.2.2) = none) :
    (m.2.1, JVal.jobj []) ∈ (processToolCalls call_tool response_text).2 ∧
    (processToolCalls call_tool response_text).2.length =
      (findToolCalls response_text).length := by
  constructor
  · rw [processToolCalls_snd]
    have heq : (fun mm : Nat × String × String =>
        (mm.2.1, parseToolArgs mm.2.2)) m = (m.2.1, JVal.jobj []) := by
      simp [parseToolArgs, hbad]
    exact heq ▸ List.mem_map_of_mem _ hm
  · rw [processToolCalls_snd]
    exact List.length_map _ _

/-- Witness for claim C3: the marker argument text nope is not JSON; the
mediator records a call with the empty mapping. -/
theorem malformedArgsDegrade_witness :
    ((0, "foo", "nope") ∈ findToolCalls "[Tool call: foo with args nope]") ∧
    jsonLoads (replaceQuotes "nope") = none ∧
    ("foo", JVal.jobj []) ∈
      (processToolCalls (fun _ _ => "") "[Tool call: foo with args nope]").2 :=
  ⟨by decide, rfl,
    (malformedArgsDegrade (fun _ _ => "") "[Tool call: foo with args nope]"
      (0, "foo", "nope") (by decide) rfl).1⟩

/-!
## Round-trip machinery: character classes and decimal digits
-/

theorem plainChar_spec {c : Char} (h : plainChar c = true) :
    32 ≤ c.toNat ∧ c.toNat ≤ 126 ∧ c ≠ charSQuote ∧ c ≠ charDQuote ∧
      c ≠ charBackslash ∧ c ≠ ']' := by
  simp only [plainChar, Bool.and_eq_true, decide_eq_true_eq, bne_iff_ne, ne_eq] at h
  tauto

theorem plainChar_ne {c : Char} (h : plainChar c = true) {d : Char}
    (hd : plainChar d = false) : c ≠ d := by
  intro he
  rw [he, hd] at h
  exact Bool.noConfusion h

theorem isDigit_ne {c : Char} (h : c.isDigit = true) {d : Char}
    (hd : d.isDigit = false) : c ≠ d := by
  intro he
  rw [he, hd] at h
  exact Bool.noConfusion h

theorem digitToChar_isDigit {n : Nat} (h : n < 10) : (digitToChar n).isDigit = true := by
  interval_cases n <;> decide

theorem digitToChar_toNat {n : Nat} (h : n < 10) : (digitToChar n).toNat = 48 + n := by
  interval_cases n <;> decide

theorem digitToChar_eq_zero {n : Nat} (h : n < 10) : digitToChar n = '0' ↔ n = 0 := by
  interval_cases n <;> decide

theorem natReprAux_zero (n : Nat) : natReprAux 0 n = [] := rfl

theorem natReprAux_succ (f n : Nat) :
    natReprAux (f + 1) n =
      if n < 10 then [digitToChar n]
      else natReprAux f (n / 10) ++ [digitToChar (n % 10)] := rfl

theorem natReprAux_digits : ∀ (f n : Nat), ∀ c ∈ natReprAux f n, c.isDigit = true := by
  intro f
  induction f with
  | zero => intro n c hc; rw [natReprAux_zero] at hc; exact absurd hc (by simp)
  | succ f ih =>
    intro n c hc
    rw [natReprAux_succ] at hc
    by_cases h : n < 10
    · rw [if_pos h] at hc
      have : c = digitToChar n := by simpa using hc
      rw [this]
      exact digitToChar_isDigit h
    · rw [if_neg h] at hc
      rcases List.mem_append.mp hc with hc | hc
      · exact ih _ _ hc
      · have : c = digitToChar (n % 10) := by simpa using hc
        rw [this]
        exact digitToChar_isDigit (Nat.mod_lt _ (by norm_num))

theorem natReprAux_ne_nil (f n : Nat) : natReprAux (f + 1) n ≠ [] := by
  rw [natReprAux_succ]
  by_cases h : n < 10
  · simp [h]
  · simp [h]

theorem natReprAux_fuel : ∀ (f g n : Nat), n < f → n < g →
    natReprAux f n = natReprAux g n := by
  intro f
  induction f with
  | zero => intro g n h; omega
  | succ f ih =>
    intro g n hf hg
    cases g with
    | zero => omega
    | succ g =>
      rw [natReprAux_succ, natReprAux_succ]
      by_cases h : n < 10
      · simp [h]
      · simp only [if_neg h]
        have hd : n / 10 < n := Nat.div_lt_self (by omega) (by norm_num)
        rw [ih g (n / 10) (by omega) (by omega)]

theorem jdigitsAux_append : ∀ (l : List Char) (acc k : Nat) (r : List Char),
    (∀ c ∈ l, c.isDigit = true) → numStopper r →
    jdigitsAux acc k (l ++ r) =
      (l.foldl (fun a c => a * 10 + (c.toNat - 48)) acc, k + l.length, r) := by
  intro l
  induction l with
  | nil =>
    intro acc k r _ hr
    cases r with
    | nil => simp [jdigitsAux]
    | cons d ds =>
      have hd : d.isDigit = false := hr.1
      simp [jdigitsAux, hd]
  | cons c l ih =>
    intro acc k r hl hr
    have hc : c.isDigit = true := hl c (by simp)
    show jdigitsAux acc k (c :: (l ++ r)) = _
    rw [show jdigitsAux acc k (c :: (l ++ r)) =
        jdigitsAux (acc * 10 + (c.toNat - 48)) (k + 1) (l ++ r) from by
      simp [jdigitsAux, hc]]
    rw [ih _ _ _ (fun x hx => hl x (by simp [hx])) hr]
    simp only [List.foldl_cons, List.length_cons, Prod.mk.injEq]
    refine ⟨trivial, by omega, trivial⟩

theorem natRepr_foldl : ∀ n : Nat,
    (natReprAux (n + 1) n).foldl (fun a c => a * 10 + (c.toNat - 48)) 0 = n := by
  intro n
  induction n using Nat.strong_induction_on with
  | _ n ih =>
    rw [natReprAux_succ]
    by_cases h : n < 10
    · rw [if_pos h]
      simp only [List.foldl_cons, List.foldl_nil]
      rw [digitToChar_toNat h]
      omega
    · rw [if_neg h]
      rw [natReprAux_fuel n (n / 10 + 1) (n / 10)
        (by have := Nat.div_lt_self (show 0 < n by omega) (show 1 < 10 by norm_num); omega)
        (by omega)]
      rw [List.foldl_append]
      rw [ih (n / 10) (Nat.div_lt_self (by omega) (by norm_num))]
      simp only [List.foldl_cons, List.foldl_nil]
      rw [digitToChar_toNat (Nat.mod_lt _ (by norm_num))]
      omega

theorem natRepr_head_zero : ∀ (n : Nat) (d : Char) (ds : List Char),
    natReprAux (n + 1) n = d :: ds → d = '0' → n = 0 := by
  intro n
  induction n using Nat.strong_induction_on with
  | _ n ih =>
    intro d ds heq hd
    rw [natReprAux_succ] at heq
    by_cases h : n < 10
    · rw [if_pos h] at heq
      have h1 : digitToChar n = d := by
        have := congrArg (fun l => l.head?) heq
        simpa using this
      exact (digitToChar_eq_zero h).mp (h1.trans hd)
    · rw [if_neg h] at heq
      rw [natReprAux_fuel n (n / 10 + 1) (n / 10)
        (by have := Nat.div_lt_self (show 0 < n by omega) (show 1 < 10 by norm_num); omega)
        (by omega)] at heq
      cases h9 : natReprAux (n / 10 + 1) (n / 10) with
      | nil => exact absurd h9 (natReprAux_ne_nil _ _)
      | cons d0 ds0 =>
        rw [h9, List.cons_append] at heq
        have hd0 : d0 = d := by
          have := congrArg (fun l => l.head?) heq
          simpa using this
        have := ih (n / 10) (Nat.div_lt_self (by omega) (by norm_num)) d0 ds0 h9
          (hd0.trans hd)
        omega

/-!
## Round-trip machinery: the number grammar on a decimal rendering
-/

theorem jfracPart_stop (s2 : List Char) (hr : numStopper s2) : jfracPart s2 = (0, 0, s2) := by
  match s2 with
  | [] => rfl
  | [x] => rfl
  | x :: y :: ys =>
    have hx : x ≠ '.' := hr.2.1
    simp [jfracPart, hx]

theorem jexpPart_stop (s3 : List Char) (hr : numStopper s3) : jexpPart s3 = (false, 0, s3) := by
  match s3 with
  | [] => rfl
  | e :: rest =>
    have h1 : e ≠ 'e' := hr.2.2.1
    have h2 : e ≠ 'E' := hr.2.2.2
    simp [jexpPart, h1, h2]

theorem numStopper_comma (xs : List Char) : numStopper (',' :: xs) :=
  ⟨by decide, by decide, by decide, by decide⟩

theorem numStopper_rbrace (xs : List Char) : numStopper (charRBrace :: xs) :=
  ⟨by decide, by decide, by decide, by decide⟩

theorem jnumberBody_natRepr (neg : Bool) (n : Nat) (r : List Char) (hr : numStopper r) :
    jnumberBody neg (natReprAux (n + 1) n ++ r) =
      some (JVal.jint (if neg then -(n : Int) else (n : Int)), r) := by
  cases heq : natReprAux (n + 1) n with
  | nil => exact absurd heq (natReprAux_ne_nil _ _)
  | cons d0 ds =>
    have hd0 : d0.isDigit = true := natReprAux_digits (n + 1) n d0 (by rw [heq]; simp)
    have hds : ∀ c ∈ ds, c.isDigit = true := fun c hc =>
      natReprAux_digits (n + 1) n c (by rw [heq]; simp [hc])
    have hfold : ds.foldl (fun a c => a * 10 + (c.toNat - 48)) (d0.toNat - 48) = n := by
      have h1 := natRepr_foldl n
      rw [heq] at h1
      simpa [List.foldl_cons] using h1
    have hipart : (if d0 = '0' then ((0 : Nat), ds ++ r)
        else
          let q := jdigitsAux (d0.toNat - 48) 1 (ds ++ r)
          (q.1, q.2.2)) = (n, r) := by
      by_cases h0 : d0 = '0'
      · have hn0 : n = 0 := natRepr_head_zero n d0 ds heq h0
        subst hn0
        have hrepr : natReprAux (0 + 1) 0 = ['0'] := rfl
        rw [hrepr] at heq
        injection heq with hh1 hh2
        rw [if_pos h0, ← hh2]
        rfl
      · rw [if_neg h0]
        rw [jdigitsAux_append ds _ _ r hds hr]
        dsimp only
        rw [hfold]
    show jnumberBody neg (d0 :: (ds ++ r)) = _
    unfold jnumberBody
    dsimp only
    rw [if_neg (show ¬((!d0.isDigit) = true) from by simp [hd0])]
    rw [hipart]
    dsimp only
    rw [jfracPart_stop r hr]
    dsimp only
    rw [jexpPart_stop r hr]
    dsimp only
    rw [if_pos (by simp)]

theorem jnumber_intRepr (i : Int) (r : List Char) (hr : numStopper r) :
    jnumber ((intReprStr i).data ++ r) = some (JVal.jint i, r) := by
  by_cases hi : i < 0
  · have hd : (intReprStr i).data = '-' :: natReprAux (i.natAbs + 1) i.natAbs := by
      unfold intReprStr
      rw [if_pos hi]
    rw [hd]
    show jnumber ('-' :: (natReprAux (i.natAbs + 1) i.natAbs ++ r)) = _
    unfold jnumber
    dsimp only
    rw [if_pos rfl]
    rw [jnumberBody_natRepr true i.natAbs r hr]
    have : -(i.natAbs : Int) = i := by omega
    rw [if_pos rfl, this]
  · have hd : (intReprStr i).data = natReprAux (i.toNat + 1) i.toNat := by
      unfold intReprStr natReprStr
      rw [if_neg hi]
    rw [hd]
    cases heq : natReprAux (i.toNat + 1) i.toNat with
    | nil => exact absurd heq (natReprAux_ne_nil _ _)
    | cons d0 ds =>
      have hd0 : d0.isDigit = true := natReprAux_digits _ _ d0 (by rw [heq]; simp)
      show jnumber (d0 :: (ds ++ r)) = _
      unfold jnumber
      dsimp only
      rw [if_neg (isDigit_ne hd0 (by decide))]
      rw [show d0 :: (ds ++ r) = (d0 :: ds) ++ r from rfl, ← heq]
      rw [jnumberBody_natRepr false i.toNat r hr]
      have : ((i.toNat : Nat) : Int) = i := Int.toNat_of_nonneg (by omega)
      rw [if_neg (by simp), this]

/-!
## Round-trip machinery: strings, whitespace, dispatch
-/

theorem jstrBody_plain : ∀ (l acc r : List Char), (∀ c ∈ l, plainChar c = true) →
    jstrBody acc (l ++ charDQuote :: r) = some (String.mk (acc.reverse ++ l), r) := by
  intro l
  induction l with
  | nil =>
    intro acc r _
    show jstrBody acc (charDQuote :: r) = _
    unfold jstrBody
    rw [if_pos rfl]
    simp
  | cons c l ih =>
    intro acc r hl
    have hc := hl c (by simp)
    obtain ⟨h32, h126, hsq, hdq, hbs, hbr⟩ := plainChar_spec hc
    show jstrBody acc (c :: (l ++ charDQuote :: r)) = _
    unfold jstrBody
    rw [if_neg hdq, if_neg hbs, if_neg (show ¬(c.toNat < 32) from by omega)]
    rw [ih (c :: acc) r (fun x hx => hl x (by simp [hx]))]
    simp [List.reverse_cons, List.append_assoc]

theorem jskipWs_not (c : Char) (cs : List Char) (h : jsonWs c = false) :
    jskipWs (c :: cs) = c :: cs := by
  simp [jskipWs, h]

theorem jskipWs_ws (c : Char) (cs : List Char) (h : jsonWs c = true) :
    jskipWs (c :: cs) = jskipWs cs := by
  simp [jskipWs, h]

theorem jsonWs_of_digit {c : Char} (h : c.isDigit = true) : jsonWs c = false := by
  have h1 : c ≠ ' ' := isDigit_ne h (by decide)
  have h2 : c ≠ '\t' := isDigit_ne h (by decide)
  have h3 : c ≠ '\n' := isDigit_ne h (by decide)
  have h4 : c ≠ charCR := isDigit_ne h (by decide)
  simp [jsonWs, h1, h2, h3, h4]

theorem jparse_succ (f : Nat) (s : List Char) :
    jparse (f + 1) s = jparseTop (jparse f) (f + 1) (jskipWs s) := rfl

theorem jparse_ws (c : Char) (f : Nat) (X : List Char) (h : jsonWs c = true) :
    jparse (f + 1) (c :: X) = jparse (f + 1) X := by
  rw [jparse_succ, jparse_succ, jskipWs_ws _ _ h]

theorem jparseTop_dquote (pv : List Char → Option (JVal × List Char)) (mf : Nat)
    (cs : List Char) :
    jparseTop pv mf (charDQuote :: cs) =
      match jstrBody [] cs with
      | some (str, rest) => some (JVal.jstr str, rest)
      | none => none := by
  unfold jparseTop
  dsimp only
  rw [if_neg (by decide), if_neg (by decide), if_pos rfl]

theorem jparseTop_lbrace (pv : List Char → Option (JVal × List Char)) (mf : Nat)
    (cs : List Char) :
    jparseTop pv mf (charLBrace :: cs) =
      match jskipWs cs with
      | [] => none
      | d :: ds =>
        if d = charRBrace then some (JVal.jobj [], ds)
        else
          match jmembers pv mf [] (d :: ds) with
          | some (ms, rest) => some (JVal.jobj ms, rest)
          | none => none := by
  unfold jparseTop
  dsimp only
  rw [if_pos rfl]

theorem jparseTop_digit (pv : List Char → Option (JVal × List Char)) (mf : Nat)
    (c : Char) (cs : List Char) (h : c.isDigit = true) :
    jparseTop pv mf (c :: cs) = jnumber (c :: cs) := by
  unfold jparseTop
  dsimp only
  rw [if_neg (isDigit_ne h (by decide)), if_neg (isDigit_ne h (by decide)),
    if_neg (isDigit_ne h (by decide)), if_neg (isDigit_ne h (by decide)),
    if_neg (isDigit_ne h (by decide)), if_neg (isDigit_ne h (by decide)),
    if_neg (isDigit_ne h (by decide)), if_neg (isDigit_ne h (by decide)),
    if_neg (isDigit_ne h (by decide))]

theorem matchLiteral_head_ne {c l : Char} (ls cs : List Char) (h : c ≠ l) :
    matchLiteral (l :: ls) (c :: cs) = none := by
  simp [matchLiteral, h]

theorem jparseTop_dash_digit (pv : List Char → Option (JVal × List Char)) (mf : Nat)
    (d : Char) (cs : List Char) (h : d.isDigit = true) :
    jparseTop pv mf ('-' :: d :: cs) = jnumber ('-' :: d :: cs) := by
  unfold jparseTop
  dsimp only
  rw [if_neg (by decide), if_neg (by decide), if_neg (by decide), if_neg (by decide),
    if_neg (by decide), if_neg (by decide), if_neg (by decide), if_neg (by decide),
    if_pos rfl]
  rw [matchLiteral_head_ne _ _ (isDigit_ne h (by decide))]

theorem jparse_jsonVal (v : PyVal) (hv : plainVal v = true) (f : Nat) (r : List Char)
    (hr : numStopper r) :
    jparse (f + 1) (jsonValData v ++ r) = some (pyToJson v, r) := by
  cases v with
  | str s =>
    have hplain : ∀ c ∈ s.data, plainChar c = true := by
      intro c hc
      have hv2 : s.data.all plainChar = true := hv
      exact List.all_eq_true.mp hv2 c hc
    show jparse (f + 1) ((charDQuote :: s.data ++ [charDQuote]) ++ r) = _
    rw [show (charDQuote :: s.data ++ [charDQuote]) ++ r =
        charDQuote :: (s.data ++ charDQuote :: r) from by simp]
    rw [jparse_succ, jskipWs_not _ _ (by decide), jparseTop_dquote]
    rw [jstrBody_plain s.data [] r hplain]
    dsimp only
    rw [show (([] : List Char)).reverse ++ s.data = s.data from by simp, strEta]
    rfl
  | int n =>
    show jparse (f + 1) ((intReprStr n).data ++ r) = _
    by_cases hneg : n < 0
    · have hd : (intReprStr n).data = '-' :: natReprAux (n.natAbs + 1) n.natAbs := by
        unfold intReprStr
        rw [if_pos hneg]
      cases hrep : natReprAux (n.natAbs + 1) n.natAbs with
      | nil => exact absurd hrep (natReprAux_ne_nil _ _)
      | cons d0 ds =>
        have hd0 : d0.isDigit = true := natReprAux_digits _ _ d0 (by rw [hrep]; simp)
        rw [hd, hrep]
        show jparse (f + 1) ('-' :: d0 :: (ds ++ r)) = _
        rw [jparse_succ, jskipWs_not _ _ (by decide), jparseTop_dash_digit _ _ _ _ hd0]
        rw [show '-' :: d0 :: (ds ++ r) = ('-' :: (d0 :: ds)) ++ r from rfl, ← hrep, ← hd]
        exact jnumber_intRepr n r hr
    · have hd : (intReprStr n).data = natReprAux (n.toNat + 1) n.toNat := by
        unfold intReprStr natReprStr
        rw [if_neg hneg]
      cases hrep : natReprAux (n.toNat + 1) n.toNat with
      | nil => exact absurd hrep (natReprAux_ne_nil _ _)
      | cons d0 ds =>
        have hd0 : d0.isDigit = true := natReprAux_digits _ _ d0 (by rw [hrep]; simp)
        rw [hd, hrep]
        show jparse (f + 1) (d0 :: (ds ++ r)) = _
        rw [jparse_succ, jskipWs_not _ _ (jsonWs_of_digit hd0), jparseTop_digit _ _ _ _ hd0]
        rw [show d0 :: (ds ++ r) = (d0 :: ds) ++ r from rfl, ← hrep, ← hd]
        exact jnumber_intRepr n r hr
  | bool b => simp [plainVal] at hv
  | null => simp [plainVal] at hv

theorem dictInsert_append (k : String) (v : JVal) :
    ∀ acc : List (String × JVal), (∀ kv ∈ acc, kv.1 ≠ k) →
      dictInsert k v acc = acc ++ [(k, v)] := by
  intro acc
  induction acc with
  | nil => intro _; rfl
  | cons kv acc ih =>
    intro h
    obtain ⟨k2, v2⟩ := kv
    show dictInsert k v ((k2, v2) :: acc) = _
    unfold dictInsert
    rw [if_neg (h (k2, v2) (by simp))]
    rw [ih (fun x hx => h x (by simp [hx]))]
    rfl

/-!
## Round-trip machinery: the member loop on a rendered mapping
-/

theorem jmembers_zero (pv : List Char → Option (JVal × List Char))
    (acc : List (String × JVal)) (s : List Char) : jmembers pv 0 acc s = none := rfl

theorem jmembers_succ (pv : List Char → Option (JVal × List Char)) (m : Nat)
    (acc : List (String × JVal)) (s : List Char) :
    jmembers pv (m + 1) acc s =
      match jskipWs s with
      | [] => none
      | c :: cs =>
        if c = charDQuote then
          match jstrBody [] cs with
          | none => none
          | some (key, r1) =>
            match jskipWs r1 with
            | [] => none
            | c2 :: r2 =>
              if c2 = ':' then
                match pv r2 with
                | none => none
                | some (v, r3) =>
                  let acc2 := dictInsert key v acc
                  match jskipWs r3 with
                  | [] => none
                  | d :: r4 =>
                    if d = ',' then jmembers pv m acc2 r4
                    else if d = charRBrace then some (acc2, r4) else none
              else none
        else none := rfl

theorem jmembers_ws (pv : List Char → Option (JVal × List Char)) (mf : Nat)
    (acc : List (String × JVal)) (c : Char) (Y : List Char) (h : jsonWs c = true) :
    jmembers pv mf acc (c :: Y) = jmembers pv mf acc Y := by
  cases mf with
  | zero => rfl
  | succ m => rw [jmembers_succ, jmembers_succ, jskipWs_ws _ _ h]

theorem plainArgs_cons {k : String} {v : PyVal} {rest : List (String × PyVal)}
    (hp : plainArgs ((k, v) :: rest) = true) :
    (∀ c ∈ k.data, plainChar c = true) ∧ plainVal v = true ∧ plainArgs rest = true := by
  simp only [plainArgs, List.all_cons, Bool.and_eq_true] at hp
  exact ⟨fun c hc => List.all_eq_true.mp hp.1.1 c hc, hp.1.2, hp.2⟩

theorem jmembers_render :
    ∀ (args : List (String × PyVal)) (f m : Nat) (acc : List (String × JVal)) (r : List Char),
      args ≠ [] → plainArgs args = true →
      (acc.map Prod.fst ++ args.map Prod.fst).Nodup →
      args.length ≤ m →
      jmembers (jparse (f + 1)) m acc (jsonMembersData args ++ charRBrace :: r) =
        some (acc ++ pyArgsToJson args, r) := by
  intro args
  induction args with
  | nil => intro _ _ _ _ hne; exact absurd rfl hne
  | cons a rest ih =>
    obtain ⟨k, v⟩ := a
    intro f m acc r _ hp hnd hlen
    obtain ⟨hpk, hpv, hprest⟩ := plainArgs_cons hp
    have hfresh : ∀ kv ∈ acc, kv.1 ≠ k := by
      intro kv hkv hke
      have h1 : (acc.map Prod.fst).Nodup ∧ (((k, v) :: rest).map Prod.fst).Nodup ∧
          (acc.map Prod.fst).Disjoint (((k, v) :: rest).map Prod.fst) :=
        List.nodup_append.mp hnd
      exact h1.2.2 (List.mem_map_of_mem Prod.fst hkv) (by simp [hke])
    cases m with
    | zero => simp at hlen
    | succ m =>
      cases rest with
      | nil =>
        have hshape : jsonMembersData [(k, v)] ++ charRBrace :: r =
            charDQuote :: (k.data ++ charDQuote :: ':' :: ' ' ::
              (jsonValData v ++ charRBrace :: r)) := by
          simp [jsonMembersData, List.append_assoc]
        rw [hshape, jmembers_succ, jskipWs_not _ _ (by decide)]
        dsimp only
        rw [if_pos rfl]
        rw [jstrBody_plain k.data [] (':' :: ' ' :: (jsonValData v ++ charRBrace :: r)) hpk]
        dsimp only
        rw [show String.mk ((([] : List Char)).reverse ++ k.data) = k from by
          simp only [List.reverse_nil, List.nil_append]]
        rw [jskipWs_not _ _ (by decide)]
        dsimp only
        rw [if_pos rfl]
        rw [jparse_ws _ _ _ (by decide), jparse_jsonVal v hpv f _ (numStopper_rbrace r)]
        dsimp only
        rw [dictInsert_append k (pyToJson v) acc hfresh]
        rw [jskipWs_not _ _ (by decide)]
        dsimp only
        rw [if_neg (by decide), if_pos rfl]
        rfl
      | cons b bs =>
        have hshape : jsonMembersData ((k, v) :: b :: bs) ++ charRBrace :: r =
            charDQuote :: (k.data ++ charDQuote :: ':' :: ' ' ::
              (jsonValData v ++ ',' :: ' ' :: (jsonMembersData (b :: bs) ++ charRBrace :: r))) := by
          simp [jsonMembersData, List.append_assoc]
        rw [hshape, jmembers_succ, jskipWs_not _ _ (by decide)]
        dsimp only
        rw [if_pos rfl]
        rw [jstrBody_plain k.data []
          (':' :: ' ' :: (jsonValData v ++ ',' :: ' ' ::
            (jsonMembersData (b :: bs) ++ charRBrace :: r))) hpk]
        dsimp only
        rw [show String.mk ((([] : List Char)).reverse ++ k.data) = k from by
          simp only [List.reverse_nil, List.nil_append]]
        rw [jskipWs_not _ _ (by decide)]
        dsimp only
        rw [if_pos rfl]
        rw [jparse_ws _ _ _ (by decide),
          jparse_jsonVal v hpv f _ (numStopper_comma _)]
        dsimp only
        rw [dictInsert_append k (pyToJson v) acc hfresh]
        rw [jskipWs_not _ _ (by decide)]
        dsimp only
        rw [if_pos rfl]
        rw [jmembers_ws _ _ _ _ _ (by decide)]
        have hnd2 : ((acc ++ [(k, pyToJson v)]).map Prod.fst ++
            ((b :: bs).map Prod.fst)).Nodup := by
          simpa [List.append_assoc] using hnd
        rw [ih f m (acc ++ [(k, pyToJson v)]) r (by simp) hprest hnd2
          (by simp at hlen ⊢; omega)]
        simp [pyArgsToJson, List.append_assoc]

/-!
## Round-trip machinery: quote normalisation of the dict display form
-/

theorem pyEscChar_plain {c : Char} (h : plainChar c = true) :
    pyEscChar charSQuote c = [c] := by
  obtain ⟨h32, h126, hsq, hdq, hbs, hbr⟩ := plainChar_spec h
  unfold pyEscChar
  rw [if_neg hbs, if_neg hsq, if_neg (plainChar_ne h (by decide)),
    if_neg (plainChar_ne h (by decide)), if_neg (plainChar_ne h (by decide)),
    if_neg (show ¬((c.toNat < 32 || c.toNat == 127) = true) from by simp; omega)]

theorem flatten_map_singleton {α : Type} :
    ∀ (l : List α) (f : α → List α), (∀ c ∈ l, f c = [c]) → (l.map f).flatten = l := by
  intro l f
  induction l with
  | nil => intro _; rfl
  | cons c cs ih =>
    intro h
    show (f c ++ (cs.map f).flatten) = c :: cs
    rw [h c (by simp), ih (fun x hx => h x (by simp [hx]))]
    rfl

theorem contains_eq_false {l : List Char} {a : Char} (h : ∀ c ∈ l, c ≠ a) :
    l.contains a = false := by
  induction l with
  | nil => rfl
  | cons c cs ih =>
    have hc : a ≠ c := (h c (by simp)).symm
    simp only [List.contains_cons, Bool.or_eq_false_iff]
    exact ⟨by simp [hc], ih (fun x hx => h x (by simp [hx]))⟩

theorem pyStrRepr_plain {s : String} (h : ∀ c ∈ s.data, plainChar c = true) :
    (pyStrRepr s).data = charSQuote :: s.data ++ [charSQuote] := by
  unfold pyStrRepr
  have hcont : s.data.contains charSQuote = false :=
    contains_eq_false (fun c hc => (plainChar_spec (h c hc)).2.2.1)
  rw [hcont]
  dsimp only
  rw [show (if (false && !s.data.contains charDQuote) = true then charDQuote
      else charSQuote) = charSQuote from by simp]
  rw [flatten_map_singleton s.data _ (fun c hc => pyEscChar_plain (h c hc))]

theorem map_rq_self {l : List Char} (h : ∀ c ∈ l, c ≠ charSQuote) :
    (l.map fun c => if c = charSQuote then charDQuote else c) = l := by
  induction l with
  | nil => rfl
  | cons c cs ih =>
    show (if c = charSQuote then charDQuote else c) :: _ = _
    rw [if_neg (h c (by simp)), ih (fun x hx => h x (by simp [hx]))]

theorem intReprStr_chars {i : Int} : ∀ c ∈ (intReprStr i).data,
    c.isDigit = true ∨ c = '-' := by
  intro c hc
  unfold intReprStr natReprStr at hc
  by_cases hi : i < 0
  · rw [if_pos hi] at hc
    rcases List.mem_cons.mp hc with hc | hc
    · exact Or.inr hc
    · exact Or.inl (natReprAux_digits _ _ c hc)
  · rw [if_neg hi] at hc
    exact Or.inl (natReprAux_digits _ _ c hc)

theorem map_rq_strRepr {s : String} (h : ∀ c ∈ s.data, plainChar c = true) :
    ((pyStrRepr s).data.map fun c => if c = charSQuote then charDQuote else c) =
      charDQuote :: s.data ++ [charDQuote] := by
  rw [pyStrRepr_plain h]
  simp only [List.map_cons, List.map_append,
    map_rq_self (fun c hc => (plainChar_spec (h c hc)).2.2.1)]
  simp

theorem map_rq_valRepr {v : PyVal} (hv : plainVal v = true) :
    ((pyValRepr v).data.map fun c => if c = charSQuote then charDQuote else c) =
      jsonValData v := by
  cases v with
  | str s =>
    exact map_rq_strRepr (fun c hc => List.all_eq_true.mp hv c hc)
  | int n =>
    show ((intReprStr n).data.map _) = (intReprStr n).data
    refine map_rq_self (fun c hc => ?_)
    rcases intReprStr_chars c hc with hd | hd
    · exact isDigit_ne hd (by decide)
    · rw [hd]; decide
  | bool b => simp [plainVal] at hv
  | null => simp [plainVal] at hv

theorem replaceQuotes_membersData : ∀ (args : List (String × PyVal)),
    plainArgs args = true →
    ((pyDictMembersRepr args).data.map fun c => if c = charSQuote then charDQuote else c) =
      jsonMembersData args := by
  intro args
  induction args with
  | nil => intro _; rfl
  | cons a rest ih =>
    obtain ⟨k, v⟩ := a
    intro hp
    obtain ⟨hpk, hpv, hprest⟩ := plainArgs_cons hp
    cases rest with
    | nil =>
      show (((pyStrRepr k ++ ": " ++ pyValRepr v ++ "").data).map _) = _
      simp only [strData_append, List.map_append]
      rw [map_rq_strRepr hpk, map_rq_valRepr hpv]
      simp only [jsonMembersData, List.append_assoc]
      simp
      decide
    | cons b bs =>
      show (((pyStrRepr k ++ ": " ++ pyValRepr v ++ (", " ++ pyDictMembersRepr (b :: bs))).data).map _) = _
      simp only [strData_append, List.map_append]
      rw [map_rq_strRepr hpk, map_rq_valRepr hpv, ih hprest]
      simp only [jsonMembersData, List.append_assoc]
      simp
      decide

theorem replaceQuotes_dict {args : List (String × PyVal)} (hp : plainArgs args = true) :
    (replaceQuotes (pyDictRepr args)).data =
      charLBrace :: (jsonMembersData args ++ [charRBrace]) := by
  unfold replaceQuotes pyDictRepr
  show (("\x7b" ++ pyDictMembersRepr args ++ "\x7d").data.map fun c =>
      if c = charSQuote then charDQuote else c) =
    charLBrace :: (jsonMembersData args ++ [charRBrace])
  simp only [strData_append, List.map_append]
  rw [replaceQuotes_membersData args hp]
  rfl

theorem jsonMembersData_len : ∀ args : List (String × PyVal),
    args.length ≤ (jsonMembersData args).length := by
  intro args
  induction args with
  | nil => exact Nat.le_refl 0
  | cons a rest ih =>
    obtain ⟨k, v⟩ := a
    cases rest with
    | nil => simp [jsonMembersData]
    | cons b bs =>
      have := ih
      simp only [jsonMembersData, List.length_cons, List.length_append] at this ⊢
      omega

theorem jsonLoads_dictRepr (args : List (String × PyVal)) (hp : plainArgs args = true)
    (hnd : (args.map Prod.fst).Nodup) :
    jsonLoads (replaceQuotes (pyDictRepr args)) = some (JVal.jobj (pyArgsToJson args)) := by
  cases args with
  | nil => rfl
  | cons a rest =>
    obtain ⟨k, v⟩ := a
    unfold jsonLoads
    rw [replaceQuotes_dict hp]
    obtain ⟨t, ht⟩ : ∃ t, jsonMembersData ((k, v) :: rest) = charDQuote :: t := by
      cases rest <;> exact ⟨_, rfl⟩
    rw [show (charLBrace :: (jsonMembersData ((k, v) :: rest) ++ [charRBrace])).length + 1 =
        ((((jsonMembersData ((k, v) :: rest)).length + 1) + 1) + 1) from by
      simp only [List.length_cons, List.length_append, List.length_nil]]
    rw [jparse_succ, jskipWs_not _ _ (by decide), jparseTop_lbrace]
    rw [ht]
    rw [show (charDQuote :: t) ++ [charRBrace] = charDQuote :: (t ++ [charRBrace]) from rfl]
    rw [jskipWs_not _ _ (by decide)]
    dsimp only
    rw [if_neg (by decide)]
    rw [show charDQuote :: (t ++ [charRBrace]) = (charDQuote :: t) ++ [charRBrace] from rfl,
      ← ht]
    rw [jmembers_render ((k, v) :: rest) ((jsonMembersData ((k, v) :: rest)).length + 1)
      ((((jsonMembersData ((k, v) :: rest)).length + 1) + 1) + 1) [] [] (by simp) hp
      (by simpa using hnd)
      (by have := jsonMembersData_len ((k, v) :: rest); omega)]
    dsimp only
    rw [show jskipWs [] = [] from rfl]
    simp

theorem parseToolArgs_roundtrip (args : List (String × PyVal)) (hp : plainArgs args = true)
    (hnd : (args.map Prod.fst).Nodup) :
    parseToolArgs (pyDictRepr args) = JVal.jobj (pyArgsToJson args) := by
  unfold parseToolArgs
  rw [jsonLoads_dictRepr args hp hnd]

/-!
## Round-trip machinery: the scanner on a well-formed marker
-/

theorem matchLiteral_self : ∀ (p r : List Char), matchLiteral p (p ++ r) = some r := by
  intro p
  induction p with
  | nil => intro r; rfl
  | cons l ls ih =>
    intro r
    show matchLiteral (l :: ls) (l :: (ls ++ r)) = _
    unfold matchLiteral
    rw [if_pos rfl]
    exact ih r

theorem takeWord_append : ∀ (w : List Char), (∀ c ∈ w, isWordChar c = true) →
    ∀ (d : Char) (r : List Char), isWordChar d = false →
    takeWordChars (w ++ d :: r) = (w, d :: r) := by
  intro w
  induction w with
  | nil =>
    intro _ d r hd
    show takeWordChars (d :: r) = _
    unfold takeWordChars
    rw [if_neg (by simp [hd])]
  | cons c cs ih =>
    intro hw d r hd
    show takeWordChars (c :: (cs ++ d :: r)) = _
    unfold takeWordChars
    rw [if_pos (hw c (by simp))]
    dsimp only
    rw [ih (fun x hx => hw x (by simp [hx])) d r hd]

theorem scanArgs_through : ∀ (body acc r : List Char),
    (∀ c ∈ body, c ≠ ']' ∧ c ≠ '\n') →
    scanArgs acc (body ++ ']' :: r) = some (acc.reverse ++ body, r) := by
  intro body
  induction body with
  | nil =>
    intro acc r _
    show scanArgs acc (']' :: r) = _
    unfold scanArgs
    rw [if_pos rfl]
    simp
  | cons b bs ih =>
    intro acc r hb
    show scanArgs acc (b :: (bs ++ ']' :: r)) = _
    unfold scanArgs
    rw [if_neg (hb b (by simp)).1, if_neg (hb b (by simp)).2]
    rw [ih (b :: acc) r (fun x hx => hb x (by simp [hx]))]
    simp [List.reverse_cons, List.append_assoc]

theorem pyStrRepr_good {s : String} (h : ∀ c ∈ s.data, plainChar c = true) :
    ∀ c ∈ (pyStrRepr s).data, c ≠ ']' ∧ c ≠ '\n' := by
  intro c hc
  rw [pyStrRepr_plain h] at hc
  rcases List.mem_cons.mp hc with hc | hc
  · rw [hc]; exact ⟨by decide, by decide⟩
  · rcases List.mem_append.mp hc with hc | hc
    · have hp := h c hc
      exact ⟨(plainChar_spec hp).2.2.2.2.2, plainChar_ne hp (by decide)⟩
    · have : c = charSQuote := by simpa using hc
      rw [this]
      exact ⟨by decide, by decide⟩

theorem pyValRepr_good {v : PyVal} (hv : plainVal v = true) :
    ∀ c ∈ (pyValRepr v).data, c ≠ ']' ∧ c ≠ '\n' := by
  cases v with
  | str s => exact pyStrRepr_good (fun c hc => List.all_eq_true.mp hv c hc)
  | int n =>
    intro c hc
    rcases intReprStr_chars c hc with hd | hd
    · exact ⟨isDigit_ne hd (by decide), isDigit_ne hd (by decide)⟩
    · rw [hd]; exact ⟨by decide, by decide⟩
  | bool b => simp [plainVal] at hv
  | null => simp [plainVal] at hv

theorem pyDictMembersRepr_good : ∀ (args : List (String × PyVal)),
    plainArgs args = true →
    ∀ c ∈ (pyDictMembersRepr args).data, c ≠ ']' ∧ c ≠ '\n' := by
  intro args
  induction args with
  | nil => intro _ c hc; exact absurd hc (by simp [pyDictMembersRepr])
  | cons a rest ih =>
    obtain ⟨k, v⟩ := a
    intro hp c hc
    obtain ⟨hpk, hpv, hprest⟩ := plainArgs_cons hp
    cases rest with
    | nil =>
      have hc2 : c ∈ ((pyStrRepr k ++ ": " ++ pyValRepr v ++ "").data) := hc
      simp only [strData_append, List.mem_append] at hc2
      rcases hc2 with ((hc2 | hc2) | hc2) | hc2
      · exact pyStrRepr_good hpk c hc2
      · have : c = ':' ∨ c = ' ' := by simpa using hc2
        rcases this with h9 | h9 <;> rw [h9] <;> exact ⟨by decide, by decide⟩
      · exact pyValRepr_good hpv c hc2
      · exact absurd hc2 (by simp)
    | cons b bs =>
      have hc2 : c ∈ ((pyStrRepr k ++ ": " ++ pyValRepr v ++
          (", " ++ pyDictMembersRepr (b :: bs))).data) := hc
      simp only [strData_append, List.mem_append] at hc2
      rcases hc2 with ((hc2 | hc2) | hc2) | hc2 | hc2
      · exact pyStrRepr_good hpk c hc2
      · have : c = ':' ∨ c = ' ' := by simpa using hc2
        rcases this with h9 | h9 <;> rw [h9] <;> exact ⟨by decide, by decide⟩
      · exact pyValRepr_good hpv c hc2
      · have : c = ',' ∨ c = ' ' := by simpa using hc2
        rcases this with h9 | h9 <;> rw [h9] <;> exact ⟨by decide, by decide⟩
      · exact ih hprest c hc2

theorem pyDictRepr_good {args : List (String × PyVal)} (hp : plainArgs args = true) :
    ∀ c ∈ (pyDictRepr args).data, c ≠ ']' ∧ c ≠ '\n' := by
  intro c hc
  have hc2 : c ∈ (("\x7b" ++ pyDictMembersRepr args ++ "\x7d").data) := hc
  simp only [strData_append, List.mem_append] at hc2
  rcases hc2 with (hc2 | hc2) | hc2
  · have : c = charLBrace := by simpa using hc2
    rw [this]; exact ⟨by decide, by decide⟩
  · exact pyDictMembersRepr_good args hp c hc2
  · have : c = charRBrace := by simpa using hc2
    rw [this]; exact ⟨by decide, by decide⟩

theorem pyDictRepr_ne_nil (args : List (String × PyVal)) : (pyDictRepr args).data ≠ [] := by
  have : (pyDictRepr args).data = charLBrace :: ((pyDictMembersRepr args ++ "\x7d").data) := rfl
  rw [this]
  simp

theorem tryMatchAt_marker (name R : String) (hn : wordName name = true)
    (hR : ∀ c ∈ R.data, c ≠ ']' ∧ c ≠ '\n') (hR0 : R.data ≠ []) :
    tryMatchAt ((formatToolCallMarker name R).data) = some (name, R, []) := by
  have hword : ∀ c ∈ name.data, isWordChar c = true := by
    have h2 := hn
    simp only [wordName, Bool.and_eq_true] at h2
    exact List.all_eq_true.mp h2.2
  have hne : name.data.isEmpty = false := by
    have h2 := hn
    simp only [wordName, Bool.and_eq_true, Bool.not_eq_true'] at h2
    exact h2.1
  rw [formatMarker_data]
  unfold tryMatchAt
  rw [matchLiteral_self litToolCall _]
  dsimp only
  rw [show litWithArgs ++ (R.data ++ (']' :: [])) =
      ' ' :: (('w' :: 'i' :: 't' :: 'h' :: ' ' :: 'a' :: 'r' :: 'g' :: 's' :: ' ' :: []) ++
        (R.data ++ (']' :: []))) from rfl]
  rw [takeWord_append name.data hword ' ' _ (by decide)]
  dsimp only
  rw [if_neg (by simp [hne])]
  rw [show ' ' :: (('w' :: 'i' :: 't' :: 'h' :: ' ' :: 'a' :: 'r' :: 'g' :: 's' :: ' ' :: []) ++
      (R.data ++ (']' :: []))) = litWithArgs ++ (R.data ++ (']' :: [])) from rfl]
  rw [matchLiteral_self litWithArgs _]
  cases hc : R.data with
  | nil => exact absurd hc hR0
  | cons rc rtail =>
    have hscan : scanArgs [rc] (rtail ++ (']' :: [])) = some (rc :: rtail, []) := by
      rw [scanArgs_through rtail [rc] [] (fun x hx => hR x (by rw [hc]; simp [hx]))]
      simp
    show (if rc = '\n' then none
        else match scanArgs [rc] (rtail ++ (']' :: [])) with
          | none => none
          | some (args, rest) => some (String.mk name.data, String.mk args, rest)) =
      some (name, R, [])
    rw [if_neg (hR rc (by rw [hc]; simp)).2]
    rw [hscan]
    show some (String.mk name.data, String.mk (rc :: rtail), ([] : List Char)) =
      some (name, R, [])
    rw [show String.mk name.data = name from strEta name]
    rw [show String.mk (rc :: rtail) = R from by rw [← hc]]

theorem findToolCallsAux_nil : ∀ (f pos : Nat), findToolCallsAux f pos [] = [] := by
  intro f pos
  cases f with
  | zero => rfl
  | succ f => rfl

theorem findToolCalls_marker (name R : String) (hn : wordName name = true)
    (hR : ∀ c ∈ R.data, c ≠ ']' ∧ c ≠ '\n') (hR0 : R.data ≠ []) :
    findToolCalls (formatToolCallMarker name R) = [(0, name, R)] := by
  unfold findToolCalls
  rw [findToolCallsAux_succ]
  rw [tryMatchAt_marker name R hn hR hR0]
  dsimp only
  rw [findToolCallsAux_nil]

/-!
## Claim C1: the marker round trip
-/

/-- Claim C1 (counterexample to the claim as stated): the flat mapping
with the single boolean entry a = True is JSON-serializable and the name t
matches the name pattern, but its Python dict display form renders the
value as True, which is not valid JSON after quote normalisation, so the
mediator degrades to the empty argument mapping — not a mapping equivalent
to the original, which is nonempty. -/
theorem markerRoundTrip_counterexample :
    (processToolCalls (fun _ _ => "")
      (formatToolCallMarker "t" (pyDictRepr [("a", PyVal.bool true)]))).2 =
      [("t", JVal.jobj [])] ∧
    pyArgsToJson [("a", PyVal.bool true)] ≠ [] := by
  constructor
  · rfl
  · simp [pyArgsToJson]

/-- Claim C1 (amended: the round trip holds on the JSON-stable fragment):
for every tool name of word characters and every flat argument mapping with
distinct keys whose keys and string values consist of plain printable ASCII
characters (no quotes, backslashes or closing brackets) and whose values
are such strings or integers, the mediator scan finds exactly the one
marker with the original name and the rendered arguments, and parsing the
rendered arguments recovers exactly the original mapping, so the recorded
call_tool invocation carries the original name and mapping.  (Booleans,
None, and strings containing quote characters break the round trip, as the
counterexample shows; Python float values are outside this model.) -/
theorem markerRoundTrip_amended (name : String) (args : List (String × PyVal))
    (call_tool : String → JVal → String)
    (hn : wordName name = true) (hp : plainArgs args = true)
    (hnd : (args.map Prod.fst).Nodup) :
    findToolCalls (formatToolCallMarker name (pyDictRepr args)) =
      [(0, name, pyDictRepr args)] ∧
    parseToolArgs (pyDictRepr args) = JVal.jobj (pyArgsToJson args) ∧
    (processToolCalls call_tool (formatToolCallMarker name (pyDictRepr args))).2 =
      [(name, JVal.jobj (pyArgsToJson args))] := by
  have h1 := findToolCalls_marker name (pyDictRepr args) hn (pyDictRepr_good hp)
    (pyDictRepr_ne_nil args)
  have h2 := parseToolArgs_roundtrip args hp hnd
  refine ⟨h1, h2, ?_⟩
  rw [processToolCalls_snd, h1]
  simp [h2]

/-- Witness for the amended claim C1 at a concrete name and mapping with a
string and an integer value. -/
theorem markerRoundTrip_witness :
    (wordName "get-data" = true ∧
     plainArgs [("x", PyVal.str "hi"), ("n", PyVal.int 42)] = true ∧
     ([("x", PyVal.str "hi"), ("n", PyVal.int 42)].map Prod.fst).Nodup) ∧
    parseToolArgs (pyDictRepr [("x", PyVal.str "hi"), ("n", PyVal.int 42)]) =
      JVal.jobj (pyArgsToJson [("x", PyVal.str "hi"), ("n", PyVal.int 42)]) :=
  ⟨⟨by decide, by decide, by decide⟩,
    (markerRoundTrip_amended "get-data" [("x", PyVal.str "hi"), ("n", PyVal.int 42)]
      (fun _ _ => "") (by decide) (by decide) (by decide)).2.1⟩
